import Mathlib

/-!
Verification development for the calcify serialization core.

The Rust source is shallowly embedded: byte streams are `List Nat` (each
entry a byte value below 256 wherever an encoder produced it), text is
`List Char`, machine integers are `Nat`/`Fin (2 ^ 64)`, and 64-bit floats
are identified by their IEEE-754 bit patterns (`Fin (2 ^ 64)`), which is
faithful for the NaN-free values the specification quantifies over.
Fallible operations return `Option` or `Except CalcifyError`.  The msgpack
primitives (`write_uint`, `write_f64`, `write_str`, `write_array_len`,
`write_map_len`, `read_int`, `read_f64`, `read_str_from_slice`,
`read_array_len`, `read_map_len` from the `rmp` crate) are modelled at the
byte level following the MessagePack format the crate implements.
-/

deriving instance DecidableEq for Except

namespace Calcify

/-- Error enum from `src/utils/errors.rs` (`CalcifyError`). -/
inductive CalcifyError where
  | lightSpeedError
  | keyError
  | parseError
  | lengthError
  | objectBranchDeserializeError
deriving DecidableEq, Repr

/-- Split off the first `n` bytes of a stream, failing when fewer remain.
Models a reader consuming an exact number of payload bytes. -/
def takeN : Nat → List Nat → Option (List Nat × List Nat)
  | 0, bs => some ([], bs)
  | _ + 1, [] => none
  | n + 1, b :: bs =>
    match takeN n bs with
    | some (l, r) => some (b :: l, r)
    | none => none

theorem takeN_append (l r : List Nat) : takeN l.length (l ++ r) = some (l, r) := by
  induction l with
  | nil => rfl
  | cons b bs ih => simp [takeN, ih]

/-- Big-endian two-byte split of a value below `2 ^ 16`. -/
def bytes2 (n : Nat) : List Nat := [n / 2 ^ 8 % 256, n % 256]

/-- Big-endian four-byte split of a value below `2 ^ 32`. -/
def bytes4 (n : Nat) : List Nat :=
  [n / 2 ^ 24 % 256, n / 2 ^ 16 % 256, n / 2 ^ 8 % 256, n % 256]

/-- Big-endian eight-byte split of a value below `2 ^ 64`. -/
def bytes8 (n : Nat) : List Nat :=
  [n / 2 ^ 56 % 256, n / 2 ^ 48 % 256, n / 2 ^ 40 % 256, n / 2 ^ 32 % 256,
   n / 2 ^ 24 % 256, n / 2 ^ 16 % 256, n / 2 ^ 8 % 256, n % 256]

/-- Reassemble a big-endian byte list into a value. -/
def beVal (l : List Nat) : Nat := l.foldl (fun a b => a * 256 + b) 0

theorem beVal_bytes2 (n : Nat) (h : n < 2 ^ 16) : beVal (bytes2 n) = n := by
  simp only [beVal, bytes2, List.foldl]
  omega

theorem beVal_bytes4 (n : Nat) (h : n < 2 ^ 32) : beVal (bytes4 n) = n := by
  simp only [beVal, bytes4, List.foldl]
  omega

theorem beVal_bytes8 (n : Nat) (h : n < 2 ^ 64) : beVal (bytes8 n) = n := by
  simp only [beVal, bytes8, List.foldl]
  omega

/-- Model of `rmp::encode::write_array_len`: fixarray, array16 or array32
marker followed by the big-endian length, most compact form first.  The
argument is the `u32` the source casts the vector length to. -/
def writeArrayLen (n : Nat) : List Nat :=
  if n < 16 then [0x90 + n]
  else if n < 2 ^ 16 then 0xdc :: bytes2 n
  else 0xdd :: bytes4 n

/-- Model of `rmp::decode::read_array_len`: accepts the three array markers
and returns the announced length with the unread rest. -/
def readArrayLen (bs : List Nat) : Option (Nat × List Nat) :=
  match bs with
  | [] => none
  | m :: rest =>
    if 0x90 ≤ m ∧ m ≤ 0x9f then some (m - 0x90, rest)
    else if m = 0xdc then
      match rest with
      | b1 :: b0 :: r => some (b1 * 256 + b0, r)
      | _ => none
    else if m = 0xdd then
      match rest with
      | b3 :: b2 :: b1 :: b0 :: r => some (beVal [b3, b2, b1, b0], r)
      | _ => none
    else none

theorem readArrayLen_writeArrayLen (n : Nat) (r : List Nat) (h : n < 2 ^ 32) :
    readArrayLen (writeArrayLen n ++ r) = some (n, r) := by
  unfold writeArrayLen
  split
  · next h16 =>
    simp only [List.cons_append, List.nil_append, readArrayLen]
    rw [if_pos (by omega)]
    simp only [Option.some.injEq, Prod.mk.injEq, and_true]
    omega
  · next h16 =>
    split
    · next h65536 =>
      simp [readArrayLen, bytes2]
      omega
    · next h65536 =>
      simp [readArrayLen, bytes4, beVal]
      omega

/-- Model of `rmp::encode::write_map_len`: fixmap, map16 or map32 marker
followed by the big-endian length, most compact form first. -/
def writeMapLen (n : Nat) : List Nat :=
  if n < 16 then [0x80 + n]
  else if n < 2 ^ 16 then 0xde :: bytes2 n
  else 0xdf :: bytes4 n

/-- Model of `rmp::decode::read_map_len`: accepts the three map markers and
returns the announced length with the unread rest. -/
def readMapLen (bs : List Nat) : Option (Nat × List Nat) :=
  match bs with
  | [] => none
  | m :: rest =>
    if 0x80 ≤ m ∧ m ≤ 0x8f then some (m - 0x80, rest)
    else if m = 0xde then
      match rest with
      | b1 :: b0 :: r => some (b1 * 256 + b0, r)
      | _ => none
    else if m = 0xdf then
      match rest with
      | b3 :: b2 :: b1 :: b0 :: r => some (beVal [b3, b2, b1, b0], r)
      | _ => none
    else none

theorem readMapLen_writeMapLen (n : Nat) (r : List Nat) (h : n < 2 ^ 32) :
    readMapLen (writeMapLen n ++ r) = some (n, r) := by
  unfold writeMapLen
  split
  · next h16 =>
    simp only [List.cons_append, List.nil_append, readMapLen]
    rw [if_pos (by omega)]
    simp only [Option.some.injEq, Prod.mk.injEq, and_true]
    omega
  · next h16 =>
    split
    · next h65536 =>
      simp [readMapLen, bytes2]
      omega
    · next h65536 =>
      simp [readMapLen, bytes4, beVal]
      omega

/-- Byte of a character.  The model identifies a string's byte sequence with
its character sequence (exact for the ASCII text the format emits). -/
def charByte (c : Char) : Nat := c.toNat

/-- Character of a byte. -/
def byteChar (n : Nat) : Char := Char.ofNat n

/-- Content bytes of a string. -/
def strBytes (s : String) : List Nat := s.data.map charByte

/-- String rebuilt from content bytes. -/
def strOfBytes (l : List Nat) : String := ⟨l.map byteChar⟩

theorem strOfBytes_strBytes (s : String) : strOfBytes (strBytes s) = s := by
  have hcomp : byteChar ∘ charByte = id := funext fun c => Char.ofNat_toNat c
  simp [strOfBytes, strBytes, List.map_map, hcomp]

/-- Model of `rmp::encode::write_str`: fixstr, str8, str16 or str32 marker,
big-endian byte length, then the content bytes, most compact form first. -/
def writeStr (s : String) : List Nat :=
  (if s.data.length < 32 then [0xa0 + s.data.length]
   else if s.data.length < 256 then [0xd9, s.data.length]
   else if s.data.length < 2 ^ 16 then 0xda :: bytes2 s.data.length
   else 0xdb :: bytes4 s.data.length) ++ strBytes s

/-- Model of `rmp::decode::read_str_from_slice`: reads a string marker and
length, splits off that many content bytes, and returns the decoded string
together with the unread rest. -/
def readStr (bs : List Nat) : Option (String × List Nat) :=
  match bs with
  | [] => none
  | m :: rest =>
    if 0xa0 ≤ m ∧ m ≤ 0xbf then
      (takeN (m - 0xa0) rest).map (fun p => (strOfBytes p.1, p.2))
    else if m = 0xd9 then
      match rest with
      | l :: r => (takeN l r).map (fun p => (strOfBytes p.1, p.2))
      | _ => none
    else if m = 0xda then
      match rest with
      | b1 :: b0 :: r => (takeN (b1 * 256 + b0) r).map (fun p => (strOfBytes p.1, p.2))
      | _ => none
    else if m = 0xdb then
      match rest with
      | b3 :: b2 :: b1 :: b0 :: r =>
        (takeN (beVal [b3, b2, b1, b0]) r).map (fun p => (strOfBytes p.1, p.2))
      | _ => none
    else none

theorem takeN_strBytes (s : String) (r : List Nat) :
    takeN s.data.length (strBytes s ++ r) = some (strBytes s, r) := by
  have h := takeN_append (strBytes s) r
  simpa [strBytes] using h

theorem readStr_writeStr (s : String) (r : List Nat) (h : s.data.length < 2 ^ 32) :
    readStr (writeStr s ++ r) = some (s, r) := by
  unfold writeStr
  split
  · next h32 =>
    simp only [List.cons_append, List.nil_append, readStr]
    rw [if_pos (by omega)]
    have hl : 0xa0 + s.data.length - 0xa0 = s.data.length := by omega
    rw [hl, takeN_strBytes]
    simp [strOfBytes_strBytes]
  · next h32 =>
    split
    · next h256 =>
      simp only [List.cons_append, List.nil_append, readStr]
      rw [if_neg (by omega)]
      simp only [if_true, reduceIte, takeN_strBytes]
      simp [strOfBytes_strBytes]
    · next h256 =>
      split
      · next h65536 =>
        simp only [bytes2, List.cons_append, List.nil_append, readStr]
        rw [if_neg (by omega)]
        have hv : s.data.length / 2 ^ 8 % 256 * 256 + s.data.length % 256
            = s.data.length := by omega
        simp only [if_true, reduceIte, hv, takeN_strBytes]
        simp [strOfBytes_strBytes]
      · next h65536 =>
        simp only [bytes4, List.cons_append, List.nil_append, readStr]
        rw [if_neg (by omega)]
        have hv : beVal [s.data.length / 2 ^ 24 % 256, s.data.length / 2 ^ 16 % 256,
            s.data.length / 2 ^ 8 % 256, s.data.length % 256] = s.data.length := by
          simpa [bytes4] using beVal_bytes4 s.data.length h
        simp only [if_true, reduceIte, hv, takeN_strBytes]
        simp [strOfBytes_strBytes]

/-- Model of `rmp::encode::write_uint` (`u64` argument): positive fixint,
uint8, uint16, uint32 or uint64 marker and big-endian payload, most compact
form first. -/
def writeUint (n : Nat) : List Nat :=
  if n < 128 then [n]
  else if n < 256 then [0xcc, n]
  else if n < 2 ^ 16 then 0xcd :: bytes2 n
  else if n < 2 ^ 32 then 0xce :: bytes4 n
  else 0xcf :: bytes8 n

/-- Model of `rmp::decode::read_int` converting to `u64`: accepts every
unsigned integer marker; markers that cannot convert to `u64` fail. -/
def readIntU64 (bs : List Nat) : Option (Nat × List Nat) :=
  match bs with
  | [] => none
  | m :: rest =>
    if m < 128 then some (m, rest)
    else if m = 0xcc then
      match rest with
      | b0 :: r => some (b0, r)
      | _ => none
    else if m = 0xcd then
      match rest with
      | b1 :: b0 :: r => some (b1 * 256 + b0, r)
      | _ => none
    else if m = 0xce then
      match rest with
      | b3 :: b2 :: b1 :: b0 :: r => some (beVal [b3, b2, b1, b0], r)
      | _ => none
    else if m = 0xcf then
      match rest with
      | b7 :: b6 :: b5 :: b4 :: b3 :: b2 :: b1 :: b0 :: r =>
        some (beVal [b7, b6, b5, b4, b3, b2, b1, b0], r)
      | _ => none
    else none

theorem readIntU64_writeUint (n : Nat) (r : List Nat) (h : n < 2 ^ 64) :
    readIntU64 (writeUint n ++ r) = some (n, r) := by
  unfold writeUint
  split
  · next h128 =>
    simp [readIntU64, h128]
  · next h128 =>
    split
    · next h256 =>
      simp [readIntU64]
    · next h256 =>
      split
      · next h65536 =>
        simp [readIntU64, bytes2]
        omega
      · next h65536 =>
        split
        · next h32 =>
          simp [readIntU64, bytes4, beVal]
          omega
        · next h32 =>
          simp [readIntU64, bytes8, beVal]
          omega

/-- Model of `rmp::encode::write_f64`: the f64 marker followed by the eight
big-endian bytes of the value's IEEE-754 bit pattern. -/
def writeF64 (bits : Nat) : List Nat := 0xcb :: bytes8 bits

/-- Model of `rmp::decode::read_f64`: accepts only the f64 marker and reads
eight payload bytes back into a bit pattern. -/
def readF64 (bs : List Nat) : Option (Nat × List Nat) :=
  match bs with
  | 0xcb :: b7 :: b6 :: b5 :: b4 :: b3 :: b2 :: b1 :: b0 :: r =>
    some (beVal [b7, b6, b5, b4, b3, b2, b1, b0], r)
  | _ => none

theorem readF64_writeF64 (bits : Nat) (r : List Nat) (h : bits < 2 ^ 64) :
    readF64 (writeF64 bits ++ r) = some (bits, r) := by
  simp [writeF64, readF64, bytes8, beVal]
  omega

/-- Little-endian decimal digits with explicit fuel; fuel at least the
number itself always suffices. -/
def decDigitsF : Nat → Nat → List Nat
  | 0, _ => []
  | fuel + 1, n => if n = 0 then [] else n % 10 :: decDigitsF fuel (n / 10)

theorem decDigitsF_eq_digits (fuel n : Nat) (h : n ≤ fuel) :
    decDigitsF fuel n = Nat.digits 10 n := by
  induction fuel generalizing n with
  | zero =>
    have : n = 0 := by omega
    simp [decDigitsF, this]
  | succ fuel ih =>
    by_cases h0 : n = 0
    · simp [decDigitsF, h0]
    · have hdiv : n / 10 ≤ fuel := by
        have hlt : n / 10 < n := Nat.div_lt_self (Nat.pos_of_ne_zero h0) (by norm_num)
        omega
      rw [Nat.digits_def' (by omega : 2 ≤ 10) (Nat.pos_of_ne_zero h0)]
      simp [decDigitsF, h0, ih (n / 10) hdiv]

/-- Decimal digit characters of a positive number, most significant first. -/
def decDigits (n : Nat) : List Char := (decDigitsF n n).reverse.map Nat.digitChar

/-- Decimal text of a number, as Rust's `Display` for unsigned integers. -/
def toDec (n : Nat) : List Char := if n = 0 then ['0'] else decDigits n

/-- Value of a decimal digit character. -/
def digitVal (c : Char) : Nat := c.toNat - 48

/-- Whether a character is a decimal digit. -/
def isDigitB (c : Char) : Bool := 48 ≤ c.toNat && c.toNat ≤ 57

/-- Parse an unbounded decimal numeral; fails on an empty string or any
non-digit character, as Rust's integer `FromStr` does. -/
def parseDec (s : List Char) : Option Nat :=
  if s ≠ [] ∧ s.all isDigitB then some (s.foldl (fun a c => a * 10 + digitVal c) 0)
  else none

theorem digitChar_spec (d : Nat) (h : d < 10) :
    isDigitB (Nat.digitChar d) = true ∧ digitVal (Nat.digitChar d) = d := by
  interval_cases d <;> simp [isDigitB, digitVal, Nat.digitChar]

theorem foldl_decDigits (l : List Nat) (a : Nat) (hl : ∀ d ∈ l, d < 10) :
    ((l.reverse.map Nat.digitChar).foldl (fun a c => a * 10 + digitVal c) a)
      = a * 10 ^ l.length + Nat.ofDigits 10 l := by
  induction l generalizing a with
  | nil => simp
  | cons d l ih =>
    have hd : digitVal (Nat.digitChar d) = d :=
      (digitChar_spec d (hl d (List.mem_cons_self d l))).2
    have hl' : ∀ d ∈ l, d < 10 := fun x hx => hl x (List.mem_cons_of_mem d hx)
    simp only [List.reverse_cons, List.map_append, List.map_cons, List.map_nil,
      List.foldl_append, List.foldl_cons, List.foldl_nil, ih a hl', hd,
      Nat.ofDigits_cons, List.length_cons]
    ring

theorem parseDec_toDec (n : Nat) : parseDec (toDec n) = some n := by
  by_cases h0 : n = 0
  · subst h0; decide
  · have hdd : decDigits n = (Nat.digits 10 n).reverse.map Nat.digitChar := by
      rw [decDigits, decDigitsF_eq_digits n n le_rfl]
    have hdig : ∀ d ∈ Nat.digits 10 n, d < 10 := fun d hd =>
      Nat.digits_lt_base (by omega) hd
    have hne : Nat.digits 10 n ≠ [] := Nat.digits_ne_nil_iff_ne_zero.mpr h0
    have hall : (decDigits n).all isDigitB = true := by
      rw [hdd]
      simp only [List.all_eq_true, List.mem_map, List.mem_reverse]
      rintro c ⟨d, hd, rfl⟩
      exact (digitChar_spec d (hdig d hd)).1
    have hne2 : decDigits n ≠ [] := by
      rw [hdd]
      simp only [ne_eq, List.map_eq_nil_iff, List.reverse_eq_nil_iff]
      exact hne
    unfold toDec
    rw [if_neg h0]
    unfold parseDec
    rw [if_pos ⟨hne2, by simpa using hall⟩]
    have := foldl_decDigits (Nat.digits 10 n) 0 hdig
    simp only [hdd, this, Nat.zero_mul, Nat.zero_add, Nat.ofDigits_digits]

/-- IEEE-754 binary64 value, identified by its bit pattern; bit-pattern
equality is value equality for the NaN-free values the claims range over. -/
structure F64 where
  bits : Fin (2 ^ 64)
deriving DecidableEq, Repr

/-- Unsigned 64-bit integer value. -/
structure U64 where
  val : Fin (2 ^ 64)
deriving DecidableEq, Repr

/-- Modelled from the spec: the text form of an `f64` comes from Rust's
`Display` (std, outside this repository), whose output is the shortest
decimal string that parses back to the same value; the container format
relies on it containing no brace, bracket, comma, colon, quote or pipe
character.  The model renders the bit pattern as a decimal numeral, which
keeps exactly those properties: injective, digit-only, recovered by
`parseF64`. -/
def fmtF64 (x : F64) : List Char := toDec x.bits.val

/-- Modelled from the spec: Rust's `str::parse::<f64>` as the left inverse
of `Display` formatting (std, outside this repository), on the strings
`fmtF64` produces. -/
def parseF64 (s : List Char) : Option F64 :=
  (parseDec s).bind fun n => if h : n < 2 ^ 64 then some ⟨⟨n, h⟩⟩ else none

theorem parseF64_fmtF64 (x : F64) : parseF64 (fmtF64 x) = some x := by
  simp [parseF64, fmtF64, parseDec_toDec, x.bits.isLt, Fin.eta]

/-- Number of halvings (bounded by the fuel) needed to bring a value below
`2 ^ 54`; used to compute the IEEE-754 binary64 exponent width of a large
integer with fuel 64. -/
def halvings : Nat → Nat → Nat
  | 0, _ => 0
  | fuel + 1, n => if n < 2 ^ 54 then 0 else halvings fuel (n / 2) + 1

/-- Round a nonnegative integer to the nearest IEEE-754 binary64 value
(ties to even), returned as an exact integer: integers up to `2 ^ 53` are
representable exactly; above that the value is rounded to the nearest
multiple of the 2-power spacing of its binade. -/
def roundF64Int (n : Nat) : Nat :=
  if n ≤ 2 ^ 53 then n
  else
    let e := halvings 64 n + 1
    let q := n / 2 ^ e
    let r := n % 2 ^ e
    let half := 2 ^ (e - 1)
    if r < half then q * 2 ^ e
    else if half < r then (q + 1) * 2 ^ e
    else if q % 2 = 0 then q * 2 ^ e else (q + 1) * 2 ^ e

/-- Model of the source expression `dim.parse::<f64>()? as u64` applied to
the decimal text of a `u64` count (`Bin`/`PointBin` text decode): parse the
integer, round to the nearest representable f64 (std float parsing), then
saturate the float-to-integer cast at the `u64` range. -/
def parseCountViaF64 (s : List Char) : Option Nat :=
  (parseDec s).map fun n => min (roundF64Int n) (2 ^ 64 - 1)

theorem roundF64Int_small (n : Nat) (h : n ≤ 2 ^ 53) : roundF64Int n = n := by
  unfold roundF64Int
  rw [if_pos h]

theorem parseCountViaF64_toDec_small (n : Nat) (h : n ≤ 2 ^ 53) :
    parseCountViaF64 (toDec n) = some n := by
  have hmin : min (roundF64Int n) 18446744073709551615 = n := by
    rw [roundF64Int_small n h]; omega
  simp [parseCountViaF64, parseDec_toDec, hmin]

/-- Serialization trait from `src/utils/serializable.rs`; `to_msg` writes to
an in-memory buffer and cannot fail, so the model makes it total. -/
class Serializable (α : Type) where
  toJson : α → List Char
  toMsg : α → List Nat

/-- Deserialization trait from `src/utils/serializable.rs`. -/
class Deserializable (α : Type) where
  fromJson : List Char → Option α
  fromMsg : List Nat → Option (α × List Nat)

/-- Impl `Serializable for u64`: decimal text; `write_uint` bytes. -/
instance : Serializable U64 where
  toJson x := toDec x.val.val
  toMsg x := writeUint x.val.val

/-- Impl `Deserializable for u64`: `str::parse::<u64>`; `read_int`. -/
instance : Deserializable U64 where
  fromJson s := (parseDec s).bind fun n => if h : n < 2 ^ 64 then some ⟨⟨n, h⟩⟩ else none
  fromMsg bs := (readIntU64 bs).bind fun p =>
    if h : p.1 < 2 ^ 64 then some (⟨⟨p.1, h⟩⟩, p.2) else none

/-- Impl `Serializable for f64`: `Display` text; `write_f64` bytes. -/
instance : Serializable F64 where
  toJson := fmtF64
  toMsg x := writeF64 x.bits.val

/-- Impl `Deserializable for f64`: `str::parse::<f64>`; `read_f64`. -/
instance : Deserializable F64 where
  fromJson := parseF64
  fromMsg bs := (readF64 bs).bind fun p =>
    if h : p.1 < 2 ^ 64 then some (⟨⟨p.1, h⟩⟩, p.2) else none

/-- Impl `Serializable for String`: `format!` wraps the text in quotes;
`write_str` for the bytes. -/
instance : Serializable String where
  toJson s := '"' :: (s.data ++ ['"'])
  toMsg := writeStr

/-- Modelled from the spec: `String`'s `Deserializable` impl is missing
from the source tree (`src/utils/serializable.rs` ends after the
`Serializable for String` impl, though the spec's closed set makes the
string primitive decodable in both forms).  Text decode strips the quotes
`to_json` added; binary decode is `read_str_from_slice`. -/
instance : Deserializable String where
  fromJson s :=
    match s with
    | '"' :: rest =>
      if rest ≠ [] ∧ rest.getLast? = some '"' then some ⟨rest.dropLast⟩ else none
    | _ => none
  fromMsg := readStr

theorem u64_fromJson_toJson (x : U64) :
    Deserializable.fromJson (Serializable.toJson x) = some x := by
  simp [Serializable.toJson, Deserializable.fromJson, parseDec_toDec, x.val.isLt, Fin.eta]

theorem u64_fromMsg_toMsg (x : U64) (r : List Nat) :
    Deserializable.fromMsg (Serializable.toMsg x ++ r) = some (x, r) := by
  simp [Serializable.toMsg, Deserializable.fromMsg,
    readIntU64_writeUint x.val.val r x.val.isLt, x.val.isLt, Fin.eta]

theorem f64_fromJson_toJson (x : F64) :
    Deserializable.fromJson (Serializable.toJson x) = some x := by
  simp [Serializable.toJson, Deserializable.fromJson, parseF64_fmtF64]

theorem f64_fromMsg_toMsg (x : F64) (r : List Nat) :
    Deserializable.fromMsg (Serializable.toMsg x ++ r) = some (x, r) := by
  simp [Serializable.toMsg, Deserializable.fromMsg,
    readF64_writeF64 x.bits.val r x.bits.isLt, x.bits.isLt, Fin.eta]

theorem string_fromJson_toJson (s : String) :
    Deserializable.fromJson (Serializable.toJson s) = some s := by
  simp [Serializable.toJson, Deserializable.fromJson]

theorem string_fromMsg_toMsg (s : String) (r : List Nat) (h : s.data.length < 2 ^ 32) :
    Deserializable.fromMsg (Serializable.toMsg s ++ r) = some (s, r) := by
  simpa [Serializable.toMsg, Deserializable.fromMsg] using readStr_writeStr s r h

/-- Opening brace character. -/
def lbChar : Char := Char.ofNat 123

/-- Closing brace character. -/
def rbChar : Char := Char.ofNat 125

/-- Model of Rust `str::split` on a single-character pattern: splitting an
empty string yields one empty piece. -/
def splitChar (sep : Char) : List Char → List (List Char)
  | [] => [[]]
  | c :: rest =>
    let ps := splitChar sep rest
    if c = sep then [] :: ps
    else
      match ps with
      | p :: ps2 => (c :: p) :: ps2
      | [] => [[c]]

/-- Model of Rust `str::split_terminator` on a single-character pattern:
like `split`, but a final empty piece is dropped. -/
def splitTerminator (sep : Char) (l : List Char) : List (List Char) :=
  let ps := splitChar sep l
  if ps.getLast? = some [] then ps.dropLast else ps

/-- Model of Rust `str::trim_matches` with a predicate: strip matching
characters from both ends. -/
def trimMatches (p : Char → Bool) (l : List Char) : List Char :=
  ((l.dropWhile p).reverse.dropWhile p).reverse

/-- Model of Rust `str::replace` on a single-character pattern. -/
def replaceChar (a b : Char) (l : List Char) : List Char :=
  l.map fun c => if c = a then b else c

/-- Left-to-right non-overlapping substring replacement with explicit fuel;
one character is consumed per fuel unit, so fuel equal to the input length
suffices for every nonempty pattern. -/
def replaceSubF (pat rep : List Char) : Nat → List Char → List Char
  | 0, l => l
  | _ + 1, [] => []
  | fuel + 1, c :: rest =>
    if pat.isPrefixOf (c :: rest) then
      rep ++ replaceSubF pat rep fuel (rest.drop (pat.length - 1))
    else c :: replaceSubF pat rep fuel rest

/-- Model of Rust `str::replace` on a multi-character pattern. -/
def replaceSub (pat rep l : List Char) : List Char := replaceSubF pat rep l.length l

/-- Left-to-right non-overlapping substring split with explicit fuel, piece
accumulator reversed. -/
def splitSubF (pat : List Char) : Nat → List Char → List Char → List (List Char)
  | 0, acc, l => [acc.reverse ++ l]
  | _ + 1, acc, [] => [acc.reverse]
  | fuel + 1, acc, c :: rest =>
    if pat.isPrefixOf (c :: rest) then
      acc.reverse :: splitSubF pat fuel [] (rest.drop (pat.length - 1))
    else splitSubF pat fuel (c :: acc) rest

/-- Model of Rust `str::split` on a multi-character pattern. -/
def splitSub (pat l : List Char) : List (List Char) := splitSubF pat l.length [] l

/-- Bit pattern of `f64::NAN`, the source's decode-loop initializer. -/
def nanF64 : F64 := ⟨⟨0x7ff8000000000000, by decide⟩⟩

/-- Point record from `src/tree/branch/collection/point.rs`. -/
structure Point where
  x : F64
  y : F64
deriving DecidableEq, Repr

/-- Impl `Serializable for Point`, text form. -/
def Point.toJson (p : Point) : List Char :=
  [lbChar] ++ ("\"x\":").data ++ fmtF64 p.x ++ (",\"y\":").data ++ fmtF64 p.y ++ [rbChar]

/-- Impl `Serializable for Point`, binary form: a 2-array of the two floats. -/
def Point.toMsg (p : Point) : List Nat :=
  writeArrayLen 2 ++ writeF64 p.x.bits.val ++ writeF64 p.y.bits.val

/-- One `dim` iteration of `Point::from_json`: split on the colon and
dispatch on the field name; a piece with no value position is the source's
out-of-bounds panic, modelled as failure. -/
def Point.fromJsonStep (acc : F64 × F64) (dim : List Char) : Option (F64 × F64) :=
  match splitChar ':' dim with
  | k :: vs =>
    if k = ("\"x\"").data then
      match vs with
      | v :: _ => (parseF64 v).map fun xv => (xv, acc.2)
      | [] => none
    else if k = ("\"y\"").data then
      match vs with
      | v :: _ => (parseF64 v).map fun yv => (acc.1, yv)
      | [] => none
    else none
  | [] => none

/-- Impl `Deserializable for Point`, text form: trim braces, split on
commas, fold the keyed fields over NaN initializers. -/
def Point.fromJson (s : List Char) : Option Point :=
  let dims := splitChar ',' (trimMatches (fun c => c = lbChar || c = rbChar) s)
  (dims.foldlM Point.fromJsonStep (nanF64, nanF64)).map fun a => ⟨a.1, a.2⟩

/-- Impl `Deserializable for Point`, binary form: a 2-array marker then the
two floats, returning the unread rest. -/
def Point.fromMsg (bs : List Nat) : Option (Point × List Nat) :=
  match readArrayLen bs with
  | some (2, r0) =>
    match readF64 r0 with
    | some (xb, r1) =>
      match readF64 r1 with
      | some (yb, r2) =>
        if h : xb < 2 ^ 64 ∧ yb < 2 ^ 64 then some (⟨⟨⟨xb, h.1⟩⟩, ⟨⟨yb, h.2⟩⟩⟩, r2)
        else none
      | none => none
    | none => none
  | _ => none

instance : Serializable Point := ⟨Point.toJson, Point.toMsg⟩

instance : Deserializable Point := ⟨Point.fromJson, Point.fromMsg⟩

theorem point_fromMsg_toMsg (p : Point) (r : List Nat) :
    Point.fromMsg (Point.toMsg p ++ r) = some (p, r) := by
  have hx := readF64_writeF64 p.x.bits.val (writeF64 p.y.bits.val ++ r) p.x.bits.isLt
  have hy := readF64_writeF64 p.y.bits.val r p.y.bits.isLt
  simp [Point.toMsg, Point.fromMsg, writeArrayLen, readArrayLen, List.append_assoc,
    hx, hy, p.x.bits.isLt, p.y.bits.isLt]

/-- Bin record from `src/tree/branch/collection/bin.rs`. -/
structure Bin where
  in_edge : F64
  ex_edge : F64
  count : U64
deriving DecidableEq, Repr

/-- Impl `Serializable for Bin`, text form. -/
def Bin.toJson (b : Bin) : List Char :=
  [lbChar] ++ ("\"count\":").data ++ toDec b.count.val.val ++ (",\"range\":[").data
    ++ fmtF64 b.in_edge ++ [','] ++ fmtF64 b.ex_edge ++ [']'] ++ [rbChar]

/-- Impl `Serializable for Bin`, binary form: a 2-array of the count and a
2-array of the edges. -/
def Bin.toMsg (b : Bin) : List Nat :=
  writeArrayLen 2 ++ writeUint b.count.val.val ++ writeArrayLen 2
    ++ writeF64 b.in_edge.bits.val ++ writeF64 b.ex_edge.bits.val

/-- Indexed loop of `Bin::from_json`: piece 1 is the count parsed through
`parse::<f64>()? as u64`, pieces 4 and 5 the edges, a seventh piece is a
parse error; accumulator order (count, in edge, ex edge). -/
def Bin.fromJsonLoop : Nat → List (List Char) → Nat × F64 × F64 → Option (Nat × F64 × F64)
  | _, [], acc => some acc
  | i, p :: rest, acc =>
    match i with
    | 0 => Bin.fromJsonLoop 1 rest acc
    | 1 => (parseCountViaF64 p).bind fun c => Bin.fromJsonLoop 2 rest (c, acc.2)
    | 2 => Bin.fromJsonLoop 3 rest acc
    | 3 => Bin.fromJsonLoop 4 rest acc
    | 4 => (parseF64 p).bind fun v => Bin.fromJsonLoop 5 rest (acc.1, v, acc.2.2)
    | 5 => (parseF64 p).bind fun v => Bin.fromJsonLoop 6 rest (acc.1, acc.2.1, v)
    | _ => none

/-- Impl `Deserializable for Bin`, text form: colons and brackets are all
replaced by commas, braces trimmed, then the pieces are consumed by
position. -/
def Bin.fromJson (s : List Char) : Option Bin :=
  let s2 := replaceChar ']' ',' (replaceChar '[' ',' (replaceChar ':' ',' s))
  let ps := splitTerminator ',' (trimMatches (fun c => c = lbChar || c = rbChar) s2)
  (Bin.fromJsonLoop 0 ps (0, nanF64, nanF64)).bind fun a =>
    if h : a.1 < 2 ^ 64 then some ⟨a.2.1, a.2.2, ⟨⟨a.1, h⟩⟩⟩ else none

/-- Impl `Deserializable for Bin`, binary form. -/
def Bin.fromMsg (bs : List Nat) : Option (Bin × List Nat) :=
  match readArrayLen bs with
  | some (2, r0) =>
    match readIntU64 r0 with
    | some (c, r1) =>
      match readArrayLen r1 with
      | some (2, r2) =>
        match readF64 r2 with
        | some (ib, r3) =>
          match readF64 r3 with
          | some (eb, r4) =>
            if h : c < 2 ^ 64 ∧ ib < 2 ^ 64 ∧ eb < 2 ^ 64 then
              some (⟨⟨⟨ib, h.2.1⟩⟩, ⟨⟨eb, h.2.2⟩⟩, ⟨⟨c, h.1⟩⟩⟩, r4)
            else none
          | none => none
        | none => none
      | _ => none
    | none => none
  | _ => none

instance : Serializable Bin := ⟨Bin.toJson, Bin.toMsg⟩

instance : Deserializable Bin := ⟨Bin.fromJson, Bin.fromMsg⟩

/-- PointBin record from `src/tree/branch/collection/point_bin.rs`. -/
structure PointBin where
  in_edge_x : F64
  ex_edge_x : F64
  in_edge_y : F64
  ex_edge_y : F64
  count : U64
deriving DecidableEq, Repr

/-- Impl `Serializable for PointBin`, text form. -/
def PointBin.toJson (b : PointBin) : List Char :=
  [lbChar] ++ ("\"count\":").data ++ toDec b.count.val.val ++ (",\"range\":[").data
    ++ fmtF64 b.in_edge_x ++ [','] ++ fmtF64 b.ex_edge_x ++ [',']
    ++ fmtF64 b.in_edge_y ++ [','] ++ fmtF64 b.ex_edge_y ++ [']'] ++ [rbChar]

/-- Impl `Serializable for PointBin`, binary form: a 2-array of the count
and a 4-array of the edges. -/
def PointBin.toMsg (b : PointBin) : List Nat :=
  writeArrayLen 2 ++ writeUint b.count.val.val ++ writeArrayLen 4
    ++ writeF64 b.in_edge_x.bits.val ++ writeF64 b.ex_edge_x.bits.val
    ++ writeF64 b.in_edge_y.bits.val ++ writeF64 b.ex_edge_y.bits.val

/-- Indexed loop of `PointBin::from_json`; accumulator order
(count, in x, ex x, in y, ex y). -/
def PointBin.fromJsonLoop :
    Nat → List (List Char) → Nat × F64 × F64 × F64 × F64 → Option (Nat × F64 × F64 × F64 × F64)
  | _, [], acc => some acc
  | i, p :: rest, acc =>
    match i with
    | 0 => PointBin.fromJsonLoop 1 rest acc
    | 1 => (parseCountViaF64 p).bind fun c => PointBin.fromJsonLoop 2 rest (c, acc.2)
    | 2 => PointBin.fromJsonLoop 3 rest acc
    | 3 => PointBin.fromJsonLoop 4 rest acc
    | 4 => (parseF64 p).bind fun v =>
        PointBin.fromJsonLoop 5 rest (acc.1, v, acc.2.2)
    | 5 => (parseF64 p).bind fun v =>
        PointBin.fromJsonLoop 6 rest (acc.1, acc.2.1, v, acc.2.2.2)
    | 6 => (parseF64 p).bind fun v =>
        PointBin.fromJsonLoop 7 rest (acc.1, acc.2.1, acc.2.2.1, v, acc.2.2.2.2)
    | 7 => (parseF64 p).bind fun v =>
        PointBin.fromJsonLoop 8 rest (acc.1, acc.2.1, acc.2.2.1, acc.2.2.2.1, v)
    | _ => none

/-- Impl `Deserializable for PointBin`, text form. -/
def PointBin.fromJson (s : List Char) : Option PointBin :=
  let s2 := replaceChar ']' ',' (replaceChar '[' ',' (replaceChar ':' ',' s))
  let ps := splitTerminator ',' (trimMatches (fun c => c = lbChar || c = rbChar) s2)
  (PointBin.fromJsonLoop 0 ps (0, nanF64, nanF64, nanF64, nanF64)).bind fun a =>
    if h : a.1 < 2 ^ 64 then
      some ⟨a.2.1, a.2.2.1, a.2.2.2.1, a.2.2.2.2, ⟨⟨a.1, h⟩⟩⟩
    else none

/-- Impl `Deserializable for PointBin`, binary form. -/
def PointBin.fromMsg (bs : List Nat) : Option (PointBin × List Nat) :=
  match readArrayLen bs with
  | some (2, r0) =>
    match readIntU64 r0 with
    | some (c, r1) =>
      match readArrayLen r1 with
      | some (4, r2) =>
        match readF64 r2 with
        | some (a1, s1) =>
          match readF64 s1 with
          | some (a2, s2) =>
            match readF64 s2 with
            | some (a3, s3) =>
              match readF64 s3 with
              | some (a4, s4) =>
                if h : c < 2 ^ 64 ∧ a1 < 2 ^ 64 ∧ a2 < 2 ^ 64 ∧ a3 < 2 ^ 64 ∧ a4 < 2 ^ 64 then
                  some (⟨⟨⟨a1, h.2.1⟩⟩, ⟨⟨a2, h.2.2.1⟩⟩, ⟨⟨a3, h.2.2.2.1⟩⟩,
                    ⟨⟨a4, h.2.2.2.2⟩⟩, ⟨⟨c, h.1⟩⟩⟩, s4)
                else none
              | none => none
            | none => none
          | none => none
        | none => none
      | _ => none
    | none => none
  | _ => none

instance : Serializable PointBin := ⟨PointBin.toJson, PointBin.toMsg⟩

instance : Deserializable PointBin := ⟨PointBin.fromJson, PointBin.fromMsg⟩

/-- ThreeVec record.  Its codec file (`three_vec` module of
`src/three_mat`) is not among the source files. -/
structure ThreeVec where
  x0 : F64
  x1 : F64
  x2 : F64
deriving DecidableEq, Repr

/-- Modelled from the spec: `ThreeVec`'s `Serializable` impl is in the
missing `three_vec` module; composite records emit a fixed, field-ordered
sequence of nested encodes (§4.1), here the three components as a keyed
object in text and a 3-array of floats in binary (the shape
`ThreeMat::to_msg` in the source concatenates rows into). -/
instance : Serializable ThreeVec where
  toJson v :=
    [lbChar] ++ ("\"x0\":").data ++ fmtF64 v.x0 ++ (",\"x1\":").data ++ fmtF64 v.x1
      ++ (",\"x2\":").data ++ fmtF64 v.x2 ++ [rbChar]
  toMsg v :=
    writeArrayLen 3 ++ writeF64 v.x0.bits.val ++ writeF64 v.x1.bits.val
      ++ writeF64 v.x2.bits.val

/-- One keyed-field step of the modelled `ThreeVec` text decode. -/
def ThreeVec.fromJsonStep (acc : F64 × F64 × F64) (dim : List Char) :
    Option (F64 × F64 × F64) :=
  match splitChar ':' dim with
  | k :: vs =>
    if k = ("\"x0\"").data then
      match vs with
      | v :: _ => (parseF64 v).map fun xv => (xv, acc.2)
      | [] => none
    else if k = ("\"x1\"").data then
      match vs with
      | v :: _ => (parseF64 v).map fun xv => (acc.1, xv, acc.2.2)
      | [] => none
    else if k = ("\"x2\"").data then
      match vs with
      | v :: _ => (parseF64 v).map fun xv => (acc.1, acc.2.1, xv)
      | [] => none
    else none
  | [] => none

/-- Modelled from the spec: `ThreeVec`'s `Deserializable` impl is in the
missing `three_vec` module; decode mirrors the sibling `FourVec` impl that
is in the source. -/
instance : Deserializable ThreeVec where
  fromJson s :=
    let dims := splitChar ',' (trimMatches (fun c => c = lbChar || c = rbChar) s)
    (dims.foldlM ThreeVec.fromJsonStep (nanF64, nanF64, nanF64)).map fun a =>
      ⟨a.1, a.2.1, a.2.2⟩
  fromMsg bs :=
    match readArrayLen bs with
    | some (3, r0) =>
      match readF64 r0 with
      | some (a1, s1) =>
        match readF64 s1 with
        | some (a2, s2) =>
          match readF64 s2 with
          | some (a3, s3) =>
            if h : a1 < 2 ^ 64 ∧ a2 < 2 ^ 64 ∧ a3 < 2 ^ 64 then
              some (⟨⟨⟨a1, h.1⟩⟩, ⟨⟨a2, h.2.1⟩⟩, ⟨⟨a3, h.2.2⟩⟩⟩, s3)
            else none
          | none => none
        | none => none
      | none => none
    | _ => none

/-- ThreeMat record from `src/three_mat/mod.rs`: three `ThreeVec` rows. -/
structure ThreeMat where
  r0 : ThreeVec
  r1 : ThreeVec
  r2 : ThreeVec
deriving DecidableEq, Repr

/-- Impl `Serializable for ThreeMat`: keyed rows in text, a 3-array of the
rows' own encodings in binary. -/
instance : Serializable ThreeMat where
  toJson m :=
    [lbChar] ++ ("\"r0\":").data ++ Serializable.toJson m.r0 ++ (",\"r1\":").data
      ++ Serializable.toJson m.r1 ++ (",\"r2\":").data ++ Serializable.toJson m.r2 ++ [rbChar]
  toMsg m :=
    writeArrayLen 3 ++ Serializable.toMsg m.r0 ++ Serializable.toMsg m.r1
      ++ Serializable.toMsg m.r2

/-- One keyed-row step of the modelled `ThreeMat` text decode. -/
def ThreeMat.fromJsonStep (acc : ThreeVec × ThreeVec × ThreeVec) (dim : List Char) :
    Option (ThreeVec × ThreeVec × ThreeVec) :=
  match splitSub [':', '!'] dim with
  | k :: vs =>
    if k = ("\"r0\"").data then
      match vs with
      | v :: _ => (Deserializable.fromJson v : Option ThreeVec).map fun xv => (xv, acc.2)
      | [] => none
    else if k = ("\"r1\"").data then
      match vs with
      | v :: _ => (Deserializable.fromJson v : Option ThreeVec).map fun xv => (acc.1, xv, acc.2.2)
      | [] => none
    else if k = ("\"r2\"").data then
      match vs with
      | v :: _ => (Deserializable.fromJson v : Option ThreeVec).map fun xv => (acc.1, acc.2.1, xv)
      | [] => none
    else none
  | [] => none

/-- Modelled from the spec: `ThreeMat` has only a `FromStr` text decode in
the source and no `Deserializable` impl; the model mirrors the sibling
`FourMat::from_json`/`from_msg` that are in the source (nested-object
splitting on `:!` markers; a 3-array of rows threading the byte cursor). -/
instance : Deserializable ThreeMat where
  fromJson s :=
    let nv := ThreeVec.mk nanF64 nanF64 nanF64
    let s2 := replaceSub [':', lbChar] [':', '!', lbChar]
      (replaceSub [rbChar, ','] [rbChar, '|'] (replaceSub [rbChar, rbChar] ['|', rbChar] s))
    let ps := splitTerminator '|' (trimMatches (fun c => c = lbChar || c = rbChar) s2)
    (ps.foldlM ThreeMat.fromJsonStep (nv, nv, nv)).map fun a => ⟨a.1, a.2.1, a.2.2⟩
  fromMsg bs :=
    match readArrayLen bs with
    | some (3, r0) =>
      match (Deserializable.fromMsg r0 : Option (ThreeVec × List Nat)) with
      | some (a1, s1) =>
        match (Deserializable.fromMsg s1 : Option (ThreeVec × List Nat)) with
        | some (a2, s2) =>
          match (Deserializable.fromMsg s2 : Option (ThreeVec × List Nat)) with
          | some (a3, s3) => some (⟨a1, a2, a3⟩, s3)
          | none => none
        | none => none
      | none => none
    | _ => none

/-- FourVec record from `src/four_mat/four_vec/mod.rs`. -/
structure FourVec where
  m0 : F64
  m1 : F64
  m2 : F64
  m3 : F64
deriving DecidableEq, Repr

/-- Impl `Serializable for FourVec`: keyed components in text, a 4-array of
floats in binary. -/
instance : Serializable FourVec where
  toJson v :=
    [lbChar] ++ ("\"m0\":").data ++ fmtF64 v.m0 ++ (",\"m1\":").data ++ fmtF64 v.m1
      ++ (",\"m2\":").data ++ fmtF64 v.m2 ++ (",\"m3\":").data ++ fmtF64 v.m3 ++ [rbChar]
  toMsg v :=
    writeArrayLen 4 ++ writeF64 v.m0.bits.val ++ writeF64 v.m1.bits.val
      ++ writeF64 v.m2.bits.val ++ writeF64 v.m3.bits.val

/-- One keyed-field step of `FourVec::from_json`. -/
def FourVec.fromJsonStep (acc : F64 × F64 × F64 × F64) (dim : List Char) :
    Option (F64 × F64 × F64 × F64) :=
  match splitChar ':' dim with
  | k :: vs =>
    if k = ("\"m0\"").data then
      match vs with
      | v :: _ => (parseF64 v).map fun xv => (xv, acc.2)
      | [] => none
    else if k = ("\"m1\"").data then
      match vs with
      | v :: _ => (parseF64 v).map fun xv => (acc.1, xv, acc.2.2)
      | [] => none
    else if k = ("\"m2\"").data then
      match vs with
      | v :: _ => (parseF64 v).map fun xv => (acc.1, acc.2.1, xv, acc.2.2.2)
      | [] => none
    else if k = ("\"m3\"").data then
      match vs with
      | v :: _ => (parseF64 v).map fun xv => (acc.1, acc.2.1, acc.2.2.1, xv)
      | [] => none
    else none
  | [] => none

/-- Impl `Deserializable for FourVec`. -/
instance : Deserializable FourVec where
  fromJson s :=
    let dims := splitChar ',' (trimMatches (fun c => c = lbChar || c = rbChar) s)
    (dims.foldlM FourVec.fromJsonStep (nanF64, nanF64, nanF64, nanF64)).map fun a =>
      ⟨a.1, a.2.1, a.2.2.1, a.2.2.2⟩
  fromMsg bs :=
    match readArrayLen bs with
    | some (4, r0) =>
      match readF64 r0 with
      | some (a1, s1) =>
        match readF64 s1 with
        | some (a2, s2) =>
          match readF64 s2 with
          | some (a3, s3) =>
            match readF64 s3 with
            | some (a4, s4) =>
              if h : a1 < 2 ^ 64 ∧ a2 < 2 ^ 64 ∧ a3 < 2 ^ 64 ∧ a4 < 2 ^ 64 then
                some (⟨⟨⟨a1, h.1⟩⟩, ⟨⟨a2, h.2.1⟩⟩, ⟨⟨a3, h.2.2.1⟩⟩, ⟨⟨a4, h.2.2.2⟩⟩⟩, s4)
              else none
            | none => none
          | none => none
        | none => none
      | none => none
    | _ => none

/-- FourMat record from `src/four_mat/mod.rs`: four `FourVec` rows. -/
structure FourMat where
  n0 : FourVec
  n1 : FourVec
  n2 : FourVec
  n3 : FourVec
deriving DecidableEq, Repr

/-- Impl `Serializable for FourMat`. -/
instance : Serializable FourMat where
  toJson m :=
    [lbChar] ++ ("\"n0\":").data ++ Serializable.toJson m.n0 ++ (",\"n1\":").data
      ++ Serializable.toJson m.n1 ++ (",\"n2\":").data ++ Serializable.toJson m.n2
      ++ (",\"n3\":").data ++ Serializable.toJson m.n3 ++ [rbChar]
  toMsg m :=
    writeArrayLen 4 ++ Serializable.toMsg m.n0 ++ Serializable.toMsg m.n1
      ++ Serializable.toMsg m.n2 ++ Serializable.toMsg m.n3

/-- One keyed-row step of `FourMat::from_json`. -/
def FourMat.fromJsonStep (acc : FourVec × FourVec × FourVec × FourVec) (dim : List Char) :
    Option (FourVec × FourVec × FourVec × FourVec) :=
  match splitSub [':', '!'] dim with
  | k :: vs =>
    if k = ("\"n0\"").data then
      match vs with
      | v :: _ => (Deserializable.fromJson v : Option FourVec).map fun xv => (xv, acc.2)
      | [] => none
    else if k = ("\"n1\"").data then
      match vs with
      | v :: _ => (Deserializable.fromJson v : Option FourVec).map fun xv =>
          (acc.1, xv, acc.2.2)
      | [] => none
    else if k = ("\"n2\"").data then
      match vs with
      | v :: _ => (Deserializable.fromJson v : Option FourVec).map fun xv =>
          (acc.1, acc.2.1, xv, acc.2.2.2)
      | [] => none
    else if k = ("\"n3\"").data then
      match vs with
      | v :: _ => (Deserializable.fromJson v : Option FourVec).map fun xv =>
          (acc.1, acc.2.1, acc.2.2.1, xv)
      | [] => none
    else none
  | [] => none

/-- Impl `Deserializable for FourMat`: text decode re-marks nested object
boundaries before splitting; binary decode reads a 4-array of rows
threading the byte cursor. -/
instance : Deserializable FourMat where
  fromJson s :=
    let nv := FourVec.mk nanF64 nanF64 nanF64 nanF64
    let s2 := replaceSub [':', lbChar] [':', '!', lbChar]
      (replaceSub [rbChar, ','] [rbChar, '|'] (replaceSub [rbChar, rbChar] ['|', rbChar] s))
    let ps := splitTerminator '|' (trimMatches (fun c => c = lbChar || c = rbChar) s2)
    (ps.foldlM FourMat.fromJsonStep (nv, nv, nv, nv)).map fun a =>
      ⟨a.1, a.2.1, a.2.2.1, a.2.2.2⟩
  fromMsg bs :=
    match readArrayLen bs with
    | some (4, r0) =>
      match (Deserializable.fromMsg r0 : Option (FourVec × List Nat)) with
      | some (a1, s1) =>
        match (Deserializable.fromMsg s1 : Option (FourVec × List Nat)) with
        | some (a2, s2) =>
          match (Deserializable.fromMsg s2 : Option (FourVec × List Nat)) with
          | some (a3, s3) =>
            match (Deserializable.fromMsg s3 : Option (FourVec × List Nat)) with
            | some (a4, s4) => some (⟨a1, a2, a3, a4⟩, s4)
            | none => none
          | none => none
        | none => none
      | none => none
    | _ => none

/-- Model of `Vec::join` on string pieces: the pieces in order with the
separator between adjacent ones. -/
def joinSep (sep : Char) : List (List Char) → List Char
  | [] => []
  | [t] => t
  | t :: ts => t ++ sep :: joinSep sep ts

theorem mem_joinSep (sep : Char) (ts : List (List Char)) (ch : Char)
    (h : ch ∈ joinSep sep ts) : ch = sep ∨ ∃ t ∈ ts, ch ∈ t := by
  induction ts with
  | nil => simp [joinSep] at h
  | cons t ts ih =>
    cases ts with
    | nil =>
      simp only [joinSep] at h
      exact Or.inr ⟨t, by simp, h⟩
    | cons u us =>
      simp only [joinSep, List.mem_append, List.mem_cons] at h
      rcases h with h | h | h
      · exact Or.inr ⟨t, by simp, h⟩
      · exact Or.inl h
      · rcases ih h with h2 | ⟨v, hv, hch⟩
        · exact Or.inl h2
        · exact Or.inr ⟨v, List.mem_cons_of_mem t hv, hch⟩

/-- Collection from `src/tree/branch/collection/mod.rs`: a wrapper around a
`Vec` of one record type, ordered. -/
structure Collection (α : Type) where
  vec : List α
deriving DecidableEq, Repr

/-- Returns a new empty Collection (`Collection::empty`). -/
def Collection.empty {α : Type} : Collection α := ⟨[]⟩

/-- Push a record at the end (`Collection::push`). -/
def Collection.push {α : Type} (c : Collection α) (x : α) : Collection α := ⟨c.vec ++ [x]⟩

/-- Number of records (`Collection::len`). -/
def Collection.len {α : Type} (c : Collection α) : Nat := c.vec.length

/-- Impl `Serializable for Collection<T>`: text joins the element texts
with commas inside brackets; binary writes the length cast to `u32` as an
array header and concatenates the element encodings in order. -/
instance {α : Type} [Serializable α] : Serializable (Collection α) where
  toJson c := '[' :: (joinSep ',' (c.vec.map Serializable.toJson) ++ [']'])
  toMsg c := writeArrayLen (c.vec.length % 2 ^ 32) ++ (c.vec.map Serializable.toMsg).flatten

/-- Element loop of `Collection::from_msg`: decode the announced number of
elements, threading the remaining-bytes cursor; any element failure is a
`ParseError`. -/
def Collection.decodeElems {α : Type} [Deserializable α] :
    Nat → List Nat → Except CalcifyError (List α × List Nat)
  | 0, bs => .ok ([], bs)
  | n + 1, bs =>
    match (Deserializable.fromMsg bs : Option (α × List Nat)) with
    | some (x, rest) =>
      match Collection.decodeElems n rest with
      | .ok (xs, r) => .ok (x :: xs, r)
      | .error e => .error e
    | none => .error .parseError

/-- Impl `Deserializable for Collection<T>`, binary form: read the array
length then that many elements; a missing header is a `ParseError`. -/
def Collection.fromMsg {α : Type} [Deserializable α] (bs : List Nat) :
    Except CalcifyError (Collection α × List Nat) :=
  match readArrayLen bs with
  | some (len, rest) =>
    match (Collection.decodeElems len rest : Except CalcifyError (List α × List Nat)) with
    | .ok (xs, r) => .ok (⟨xs⟩, r)
    | .error e => .error e
  | none => .error .parseError

/-- Element loop of `Collection::from_json`: parse each piece, pushing in
order; any element failure is a `ParseError`. -/
def Collection.parseElems {α : Type} [Deserializable α] :
    List (List Char) → Except CalcifyError (List α)
  | [] => .ok []
  | p :: rest =>
    match (Deserializable.fromJson p : Option α) with
    | some x =>
      match (Collection.parseElems rest : Except CalcifyError (List α)) with
      | .ok xs => .ok (x :: xs)
      | .error e => .error e
    | none => .error .parseError

/-- Impl `Deserializable for Collection<T>`, text form: object-element
texts get their top-level boundaries re-marked by replacing the brace-comma
pattern, scalar texts have every comma replaced, then the bracket-trimmed
text is split on the markers and each piece parsed. -/
def Collection.fromJson {α : Type} [Deserializable α] (s : List Char) :
    Except CalcifyError (Collection α) :=
  let s_iter :=
    if ['[', lbChar].isPrefixOf s then
      replaceSub [rbChar, ',', lbChar] [rbChar, '|', lbChar] s
    else replaceChar ',' '|' s
  let ps := splitChar '|' (trimMatches (fun c => c = '[' || c = ']') s_iter)
  match (Collection.parseElems ps : Except CalcifyError (List α)) with
  | .ok xs => .ok ⟨xs⟩
  | .error e => .error e

theorem collection_decodeElems_encode {α : Type} [Serializable α] [Deserializable α]
    (helem : ∀ (x : α) (r : List Nat),
      Deserializable.fromMsg (Serializable.toMsg x ++ r) = some (x, r))
    (xs : List α) (r : List Nat) :
    Collection.decodeElems xs.length ((xs.map Serializable.toMsg).flatten ++ r)
      = .ok (xs, r) := by
  induction xs with
  | nil => simp [Collection.decodeElems]
  | cons x xs ih =>
    simp only [List.map_cons, List.flatten, List.length_cons, List.append_assoc,
      Collection.decodeElems, helem x ((xs.map Serializable.toMsg).flatten ++ r), ih]

/-- Binary collection round trip, with any byte suffix returned unread:
holds whenever the element codec itself round-trips with suffixes and the
collection is shorter than `2 ^ 32` (the length is written as a `u32`). -/
theorem collection_fromMsg_toMsg {α : Type} [Serializable α] [Deserializable α]
    (helem : ∀ (x : α) (r : List Nat),
      Deserializable.fromMsg (Serializable.toMsg x ++ r) = some (x, r))
    (c : Collection α) (r : List Nat) (hlen : c.vec.length < 2 ^ 32) :
    Collection.fromMsg (Serializable.toMsg c ++ r) = .ok (c, r) := by
  have hmod : c.vec.length % 2 ^ 32 = c.vec.length := Nat.mod_eq_of_lt hlen
  simp only [Serializable.toMsg, hmod, List.append_assoc, Collection.fromMsg,
    readArrayLen_writeArrayLen c.vec.length ((c.vec.map Serializable.toMsg).flatten ++ r) hlen,
    collection_decodeElems_encode helem c.vec r]

theorem replaceChar_of_not_mem (a b : Char) (t : List Char) (h : a ∉ t) :
    replaceChar a b t = t := by
  unfold replaceChar
  induction t with
  | nil => rfl
  | cons c cs ih =>
    simp only [List.mem_cons, not_or] at h
    have hc : c ≠ a := fun hx => h.1 hx.symm
    simp only [List.map_cons, if_neg hc, ih h.2]

theorem replaceChar_joinSep (b : Char) (ts : List (List Char))
    (h : ∀ t ∈ ts, ',' ∉ t) :
    replaceChar ',' b (joinSep ',' ts) = joinSep b ts := by
  induction ts with
  | nil => rfl
  | cons t ts ih =>
    cases ts with
    | nil => exact replaceChar_of_not_mem ',' b t (h t (by simp))
    | cons u us =>
      have ht : ',' ∉ t := h t (by simp)
      have hrest : ∀ v ∈ u :: us, ',' ∉ v := fun v hv => h v (List.mem_cons_of_mem t hv)
      show replaceChar ',' b (t ++ ',' :: joinSep ',' (u :: us)) = t ++ b :: joinSep b (u :: us)
      unfold replaceChar
      rw [List.map_append]
      have h1 : List.map (fun c => if c = ',' then b else c) t = t := by
        simpa [replaceChar] using replaceChar_of_not_mem ',' b t ht
      have h2 : List.map (fun c => if c = ',' then b else c) (',' :: joinSep ',' (u :: us))
          = b :: joinSep b (u :: us) := by
        simp only [List.map_cons, if_pos rfl]
        have := ih hrest
        simpa [replaceChar] using congrArg (fun l => b :: l) this
      rw [h1, h2]

theorem splitChar_of_not_mem (sep : Char) (t : List Char) (h : sep ∉ t) :
    splitChar sep t = [t] := by
  induction t with
  | nil => rfl
  | cons c cs ih =>
    simp only [List.mem_cons, not_or] at h
    have hc : c ≠ sep := fun hx => h.1 hx.symm
    simp only [splitChar, if_neg hc, ih h.2]

theorem splitChar_append_sep (sep : Char) (t u : List Char) (h : sep ∉ t) :
    splitChar sep (t ++ sep :: u) = t :: splitChar sep u := by
  induction t with
  | nil => simp [splitChar]
  | cons c cs ih =>
    simp only [List.mem_cons, not_or] at h
    have hc : c ≠ sep := fun hx => h.1 hx.symm
    simp only [List.cons_append, splitChar, if_neg hc, List.append_eq, ih h.2]

theorem splitChar_nonempty (sep : Char) (l : List Char) : splitChar sep l ≠ [] := by
  cases l with
  | nil => simp [splitChar]
  | cons c cs =>
    simp only [splitChar]
    split
    · simp
    · split
      · simp
      · simp

theorem splitChar_joinSep (sep : Char) (ts : List (List Char)) (hne : ts ≠ [])
    (h : ∀ t ∈ ts, sep ∉ t) :
    splitChar sep (joinSep sep ts) = ts := by
  induction ts with
  | nil => exact absurd rfl hne
  | cons t ts ih =>
    cases ts with
    | nil => exact splitChar_of_not_mem sep t (h t (by simp))
    | cons u us =>
      have ht : sep ∉ t := h t (by simp)
      have hrest : ∀ v ∈ u :: us, sep ∉ v := fun v hv => h v (List.mem_cons_of_mem t hv)
      show splitChar sep (t ++ sep :: joinSep sep (u :: us)) = t :: (u :: us)
      rw [splitChar_append_sep sep t _ ht, ih (by simp) hrest]

theorem dropWhile_of_all_neg (p : Char → Bool) (l : List Char)
    (h : ∀ c ∈ l, p c = false) : List.dropWhile p l = l := by
  cases l with
  | nil => rfl
  | cons c cs => exact List.dropWhile_cons_of_neg (by simp [h c (by simp)])

theorem trimMatches_wrap (p : Char → Bool) (hp1 : p '[' = true) (hp2 : p ']' = true)
    (mid : List Char) (hall : ∀ c ∈ mid, p c = false) :
    trimMatches p ('[' :: (mid ++ [']'])) = mid := by
  unfold trimMatches
  rw [List.dropWhile_cons_of_pos (by simp [hp1])]
  cases mid with
  | nil => simp [List.dropWhile, hp2]
  | cons c cs =>
    have hc : p c = false := hall c (by simp)
    rw [List.cons_append, List.dropWhile_cons_of_neg (by simp [hc])]
    have hrev : (c :: (cs ++ [']'])).reverse = ']' :: (c :: cs).reverse := by
      simp
    rw [hrev, List.dropWhile_cons_of_pos (by simp [hp2]),
      dropWhile_of_all_neg p (c :: cs).reverse
        (fun d hd => hall d (List.mem_reverse.mp hd)), List.reverse_reverse]

/-- Text collection round trip for a nonempty collection of a scalar-form
record type: holds whenever the element text decode inverts the element
text encode and no element text contains a comma, pipe, bracket or opening
brace (true of the numeric primitives, whose texts are numerals). -/
theorem collection_fromJson_toJson_scalar {α : Type} [Serializable α] [Deserializable α]
    (helem : ∀ x : α, Deserializable.fromJson (Serializable.toJson x) = some x)
    (c : Collection α)
    (hchars : ∀ x ∈ c.vec, ∀ ch ∈ (Serializable.toJson x : List Char),
      ch ≠ ',' ∧ ch ≠ '|' ∧ ch ≠ '[' ∧ ch ≠ ']' ∧ ch ≠ lbChar)
    (hne : c.vec ≠ []) :
    Collection.fromJson (Serializable.toJson c) = .ok c := by
  have hjson : (Serializable.toJson c : List Char)
      = '[' :: (joinSep ',' (c.vec.map Serializable.toJson) ++ [']']) := rfl
  have hmid : ∀ ch ∈ joinSep ',' (c.vec.map Serializable.toJson),
      ch = ',' ∨ ∃ x ∈ c.vec, ch ∈ (Serializable.toJson x : List Char) := by
    intro ch hch
    rcases mem_joinSep ',' _ ch hch with h | ⟨t, ht, hcht⟩
    · exact Or.inl h
    · rcases List.mem_map.mp ht with ⟨x, hx, rfl⟩
      exact Or.inr ⟨x, hx, hcht⟩
  have hpref : (['[', lbChar].isPrefixOf (Serializable.toJson c : List Char)) = false := by
    rw [hjson]
    cases hj : joinSep ',' (c.vec.map Serializable.toJson) with
    | nil => rfl
    | cons d ds =>
      have hd : (lbChar == d) = false := by
        rcases hmid d (by rw [hj]; simp) with h | ⟨x, hx, hch⟩
        · rw [h]; decide
        · have hd2 := (hchars x hx d hch).2.2.2.2
          exact beq_eq_false_iff_ne.mpr fun he => hd2 he.symm
      simp [List.isPrefixOf, hd]
  have hnocomma : ∀ t ∈ c.vec.map Serializable.toJson, ',' ∉ t := by
    intro t ht hmem
    rcases List.mem_map.mp ht with ⟨x, hx, rfl⟩
    exact (hchars x hx ',' hmem).1 rfl
  have hnopipe : ∀ t ∈ c.vec.map Serializable.toJson, '|' ∉ t := by
    intro t ht hmem
    rcases List.mem_map.mp ht with ⟨x, hx, rfl⟩
    exact (hchars x hx '|' hmem).2.1 rfl
  have hrep : replaceChar ',' '|' (Serializable.toJson c)
      = '[' :: (joinSep '|' (c.vec.map Serializable.toJson) ++ [']']) := by
    rw [hjson]
    unfold replaceChar
    simp only [List.map_cons, List.map_append]
    rw [show (if '[' = ',' then '|' else '[') = '[' by decide]
    have h1 : List.map (fun ch => if ch = ',' then '|' else ch)
        (joinSep ',' (c.vec.map Serializable.toJson))
        = joinSep '|' (c.vec.map Serializable.toJson) := by
      simpa [replaceChar] using replaceChar_joinSep '|' (c.vec.map Serializable.toJson) hnocomma
    rw [h1]
    simp
  have hmid2 : ∀ ch ∈ joinSep '|' (c.vec.map Serializable.toJson),
      ch = '|' ∨ ∃ x ∈ c.vec, ch ∈ (Serializable.toJson x : List Char) := by
    intro ch hch
    rcases mem_joinSep '|' _ ch hch with h | ⟨t, ht, hcht⟩
    · exact Or.inl h
    · rcases List.mem_map.mp ht with ⟨x, hx, rfl⟩
      exact Or.inr ⟨x, hx, hcht⟩
  have htrim : trimMatches (fun ch => ch = '[' || ch = ']')
      ('[' :: (joinSep '|' (c.vec.map Serializable.toJson) ++ [']']))
      = joinSep '|' (c.vec.map Serializable.toJson) := by
    apply trimMatches_wrap _ (by simp) (by simp)
    intro ch hch
    rcases hmid2 ch hch with h | ⟨x, hx, hmem⟩
    · rw [h]; decide
    · have h1 := (hchars x hx ch hmem).2.2.1
      have h2 := (hchars x hx ch hmem).2.2.2.1
      simp [h1, h2]
  have hsplit : splitChar '|' (joinSep '|' (c.vec.map Serializable.toJson))
      = c.vec.map Serializable.toJson :=
    splitChar_joinSep '|' _ (by simpa using hne) hnopipe
  have hparse : Collection.parseElems (c.vec.map Serializable.toJson)
      = Except.ok c.vec := by
    clear hchars hne hmid hpref hnocomma hnopipe hrep htrim hsplit hjson hmid2
    induction c.vec with
    | nil => rfl
    | cons x xs ih => simp only [List.map_cons, Collection.parseElems, helem x, ih]
  show (let s_iter :=
      if ['[', lbChar].isPrefixOf (Serializable.toJson c : List Char) then
        replaceSub [rbChar, ',', lbChar] [rbChar, '|', lbChar] (Serializable.toJson c)
      else replaceChar ',' '|' (Serializable.toJson c)
    let ps := splitChar '|' (trimMatches (fun ch => ch = '[' || ch = ']') s_iter)
    match (Collection.parseElems ps : Except CalcifyError (List α)) with
    | .ok xs => .ok ⟨xs⟩
    | .error e => .error e) = Except.ok c
  rw [hpref]
  simp only [Bool.false_eq_true, if_false, hrep, htrim, hsplit, hparse]

/-- Text decode of an empty collection fails: the encoder produces `[]`,
the bracket trim leaves the empty text, Rust `split` yields one empty
piece, and the element parser rejects the empty string. -/
theorem collection_fromJson_empty {α : Type} [Serializable α] [Deserializable α]
    (hempty : (Deserializable.fromJson ([] : List Char) : Option α) = none) :
    (Collection.fromJson (Serializable.toJson (Collection.empty (α := α)))
      : Except CalcifyError (Collection α)) = .error .parseError := by
  show (Collection.fromJson ('[' :: (joinSep ',' [] ++ [']']))
      : Except CalcifyError (Collection α)) = .error .parseError
  simp [Collection.fromJson, joinSep, replaceChar, trimMatches, splitChar,
    Collection.parseElems, hempty, List.dropWhile, readArrayLen]

/-- The erased `Box<dyn Serializable>` payload of a Branch, specialized to
the collection types the source constructs branches from; `to_msg` and
`to_json` dispatch to the erased collection's encoder, as the trait
object does. -/
inductive BranchData where
  | f64Col (c : Collection F64)
  | strCol (c : Collection String)
  | threeVecCol (c : Collection ThreeVec)
  | threeMatCol (c : Collection ThreeMat)
  | fourVecCol (c : Collection FourVec)
  | fourMatCol (c : Collection FourMat)
  | binCol (c : Collection Bin)
  | pointCol (c : Collection Point)
  | pointBinCol (c : Collection PointBin)
deriving DecidableEq

/-- Binary encoding of the erased collection. -/
def BranchData.toMsg : BranchData → List Nat
  | .f64Col c => Serializable.toMsg c
  | .strCol c => Serializable.toMsg c
  | .threeVecCol c => Serializable.toMsg c
  | .threeMatCol c => Serializable.toMsg c
  | .fourVecCol c => Serializable.toMsg c
  | .fourMatCol c => Serializable.toMsg c
  | .binCol c => Serializable.toMsg c
  | .pointCol c => Serializable.toMsg c
  | .pointBinCol c => Serializable.toMsg c

/-- Text encoding of the erased collection. -/
def BranchData.toJson : BranchData → List Char
  | .f64Col c => Serializable.toJson c
  | .strCol c => Serializable.toJson c
  | .threeVecCol c => Serializable.toJson c
  | .threeMatCol c => Serializable.toJson c
  | .fourVecCol c => Serializable.toJson c
  | .fourMatCol c => Serializable.toJson c
  | .binCol c => Serializable.toJson c
  | .pointCol c => Serializable.toJson c
  | .pointBinCol c => Serializable.toJson c

/-- Branch from `src/tree/branch/mod.rs`: a subtype tag, the erased
collection, and the decode-buffer cache. -/
structure Branch where
  subtype : String
  branch : BranchData
  buffer : Option (List Nat)
deriving DecidableEq

/-- `Branch::new`: the buffer cache starts empty. -/
def Branch.new (subtype : String) (branch : BranchData) : Branch :=
  ⟨subtype, branch, none⟩

/-- Impl `Serializable for Branch`, binary form: a 2-map with the
`subtype` and `branch` entries in that order. -/
def Branch.toMsg (b : Branch) : List Nat :=
  writeMapLen 2 ++ writeStr "subtype" ++ writeStr b.subtype ++ writeStr "branch"
    ++ b.branch.toMsg

/-- Impl `Serializable for Branch`, text form. -/
def Branch.toJson (b : Branch) : List Char :=
  [lbChar] ++ ("\"subtype\":\"").data ++ b.subtype.data ++ ("\",\"branch\":").data
    ++ b.branch.toJson ++ [rbChar]

/-- Impl `Deserializable for Branch`, binary form, following the source
line by line: the map length is read but not checked; three strings are
read from a separate `unparsed` cursor (the `subtype` key, its value, the
`branch` key); then the dispatch on the subtype decodes the collection.
The `f64` through `FourMat` arms decode from `unparsed`; the `Bin`,
`Point` and `PointBin` arms pass `&mut bytes` — the cursor still sitting
just after the map header — to the collection decoder; `Object` is the
dedicated error; an unknown tag is a `ParseError`. -/
def Branch.fromMsg (bytes : List Nat) : Except CalcifyError (Branch × List Nat) :=
  match readMapLen bytes with
  | none => .error .parseError
  | some (_, bytes1) =>
    match readStr bytes1 with
    | none => .error .parseError
    | some (_, u1) =>
      match readStr u1 with
      | none => .error .parseError
      | some (subtype, u2) =>
        match readStr u2 with
        | none => .error .parseError
        | some (_, u3) =>
          if subtype = "f64" then
            match (Collection.fromMsg u3 : Except CalcifyError (Collection F64 × List Nat)) with
            | .ok (c, rest) => .ok (Branch.new subtype (.f64Col c), rest)
            | .error _ => .error .parseError
          else if subtype = "ThreeVec" then
            match (Collection.fromMsg u3 :
                Except CalcifyError (Collection ThreeVec × List Nat)) with
            | .ok (c, rest) => .ok (Branch.new subtype (.threeVecCol c), rest)
            | .error _ => .error .parseError
          else if subtype = "ThreeMat" then
            match (Collection.fromMsg u3 :
                Except CalcifyError (Collection ThreeMat × List Nat)) with
            | .ok (c, rest) => .ok (Branch.new subtype (.threeMatCol c), rest)
            | .error _ => .error .parseError
          else if subtype = "FourVec" then
            match (Collection.fromMsg u3 :
                Except CalcifyError (Collection FourVec × List Nat)) with
            | .ok (c, rest) => .ok (Branch.new subtype (.fourVecCol c), rest)
            | .error _ => .error .parseError
          else if subtype = "FourMat" then
            match (Collection.fromMsg u3 :
                Except CalcifyError (Collection FourMat × List Nat)) with
            | .ok (c, rest) => .ok (Branch.new subtype (.fourMatCol c), rest)
            | .error _ => .error .parseError
          else if subtype = "Bin" then
            match (Collection.fromMsg bytes1 :
                Except CalcifyError (Collection Bin × List Nat)) with
            | .ok (c, rest) => .ok (Branch.new subtype (.binCol c), rest)
            | .error _ => .error .parseError
          else if subtype = "Point" then
            match (Collection.fromMsg bytes1 :
                Except CalcifyError (Collection Point × List Nat)) with
            | .ok (c, rest) => .ok (Branch.new subtype (.pointCol c), rest)
            | .error _ => .error .parseError
          else if subtype = "PointBin" then
            match (Collection.fromMsg bytes1 :
                Except CalcifyError (Collection PointBin × List Nat)) with
            | .ok (c, rest) => .ok (Branch.new subtype (.pointBinCol c), rest)
            | .error _ => .error .parseError
          else if subtype = "Object" then .error .objectBranchDeserializeError
          else .error .parseError

/-- Character set of the literal pattern `trim_matches` strips in
`Branch::from_json`: the characters of the text
quote-s-u-b-t-y-p-e-quote-colon between braces. -/
def branchTrimSet : List Char :=
  [lbChar, '"', 's', 'u', 'b', 't', 'y', 'p', 'e', ':', rbChar]

/-- Dispatch of `Branch::from_json` on the trimmed subtype: the eight
decodable tags construct the matching collection decoder and propagate its
error; everything else — including `Object` and `String` — is a
`ParseError`. -/
def Branch.fromJsonDispatch (st : List Char) (bs : List Char) : Except CalcifyError Branch :=
  if st = ("f64").data then
    match (Collection.fromJson bs : Except CalcifyError (Collection F64)) with
    | .ok c => .ok (Branch.new ⟨st⟩ (.f64Col c))
    | .error e => .error e
  else if st = ("ThreeVec").data then
    match (Collection.fromJson bs : Except CalcifyError (Collection ThreeVec)) with
    | .ok c => .ok (Branch.new ⟨st⟩ (.threeVecCol c))
    | .error e => .error e
  else if st = ("ThreeMat").data then
    match (Collection.fromJson bs : Except CalcifyError (Collection ThreeMat)) with
    | .ok c => .ok (Branch.new ⟨st⟩ (.threeMatCol c))
    | .error e => .error e
  else if st = ("FourVec").data then
    match (Collection.fromJson bs : Except CalcifyError (Collection FourVec)) with
    | .ok c => .ok (Branch.new ⟨st⟩ (.fourVecCol c))
    | .error e => .error e
  else if st = ("FourMat").data then
    match (Collection.fromJson bs : Except CalcifyError (Collection FourMat)) with
    | .ok c => .ok (Branch.new ⟨st⟩ (.fourMatCol c))
    | .error e => .error e
  else if st = ("Bin").data then
    match (Collection.fromJson bs : Except CalcifyError (Collection Bin)) with
    | .ok c => .ok (Branch.new ⟨st⟩ (.binCol c))
    | .error e => .error e
  else if st = ("Point").data then
    match (Collection.fromJson bs : Except CalcifyError (Collection Point)) with
    | .ok c => .ok (Branch.new ⟨st⟩ (.pointCol c))
    | .error e => .error e
  else if st = ("PointBin").data then
    match (Collection.fromJson bs : Except CalcifyError (Collection PointBin)) with
    | .ok c => .ok (Branch.new ⟨st⟩ (.pointBinCol c))
    | .error e => .error e
  else .error .parseError

/-- Impl `Deserializable for Branch`, text form: trim the pattern
characters from both ends, split on the literal `,"branch":` separator,
take the quote-trimmed first piece as the subtype and the second piece as
the collection text (a third piece is a `ParseError`), then dispatch. -/
def Branch.fromJson (s : List Char) : Except CalcifyError Branch :=
  let pieces := splitSub ((",\"branch\":").data)
    (trimMatches (fun c => c ∈ branchTrimSet) s)
  if pieces.length > 2 then .error .parseError
  else
    Branch.fromJsonDispatch (trimMatches (fun c => c = '"') (pieces.headD []))
      (pieces.getD 1 [])

/-- Branch as seen by `Branch::extract::<T>` with the matching element
type: the same struct as `Branch`, with the erased collection at its
concrete type.  `extract` is generic in `T` and the source does not check
`T` against the tag, so the model fixes the element type parameter. -/
structure BranchE (α : Type) where
  subtype : String
  branch : Collection α
  buffer : Option (List Nat)
deriving DecidableEq

/-- `Branch::new` at the concrete element type. -/
def BranchE.new {α : Type} (s : String) (c : Collection α) : BranchE α := ⟨s, c, none⟩

/-- `Branch::extract`: on the first call the erased collection is encoded
to binary once and cached in `buffer`; the cached bytes are then decoded as
`Collection<T>`, any failure becoming a `ParseError`.  Returns the result
together with the branch's new state. -/
def BranchE.extract {α : Type} [Serializable α] [Deserializable α] (b : BranchE α) :
    Except CalcifyError (Collection α) × BranchE α :=
  let buf := match b.buffer with
    | none => Serializable.toMsg b.branch
    | some bf => bf
  let b2 := { b with buffer := some buf }
  match (Collection.fromMsg buf : Except CalcifyError (Collection α × List Nat)) with
  | .ok (out, _) => (.ok out, b2)
  | .error _ => (.error .parseError, b2)

/-- Model of `HashMap::insert`: stores the new value and returns the value
previously at the key, if any.  The association list stands for the hash
map; replaced keys keep their position, new keys append. -/
def mapInsert {β : Type} (k : String) (v : β) :
    List (String × β) → Option β × List (String × β)
  | [] => (none, [(k, v)])
  | (k2, v2) :: rest =>
    if k2 = k then (some v2, (k, v) :: rest)
    else
      let r := mapInsert k v rest
      (r.1, (k2, v2) :: r.2)

/-- Model of `HashMap::get`. -/
def mapGet {β : Type} (k : String) : List (String × β) → Option β
  | [] => none
  | (k2, v2) :: rest => if k2 = k then some v2 else mapGet k rest

/-- Model of mutating through `HashMap::get_mut`: apply `f` at the key. -/
def mapUpdate {β : Type} (k : String) (f : β → β) :
    List (String × β) → List (String × β)
  | [] => []
  | (k2, v2) :: rest =>
    if k2 = k then (k2, f v2) :: rest else (k2, v2) :: mapUpdate k f rest

/-- FeedTree from `src/tree/feedtree.rs`: metadata fields and named feeds
of one fixed record type. -/
structure FeedTree (α : Type) where
  metadata : List (String × String)
  datafeeds : List (String × Collection α)
deriving DecidableEq

/-- `FeedTree::new`: `Name` and `SubType` are the initial metadata. -/
def FeedTree.new (α : Type) (name subtype : String) : FeedTree α :=
  ⟨[("Name", name), ("SubType", subtype)], []⟩

/-- `FeedTree::add_field`: a `HashMap::insert` first, then `KeyError` when
it reports a previous value — the new value is already stored either way. -/
def FeedTree.add_field {α : Type} (t : FeedTree α) (key f : String) :
    Except CalcifyError Unit × FeedTree α :=
  let r := mapInsert key f t.metadata
  match r.1 with
  | some _ => (.error .keyError, { t with metadata := r.2 })
  | none => (.ok (), { t with metadata := r.2 })

/-- `FeedTree::add_feed`: same insert-then-report shape as `add_field`. -/
def FeedTree.add_feed {α : Type} (t : FeedTree α) (key : String) (f : Collection α) :
    Except CalcifyError Unit × FeedTree α :=
  let r := mapInsert key f t.datafeeds
  match r.1 with
  | some _ => (.error .keyError, { t with datafeeds := r.2 })
  | none => (.ok (), { t with datafeeds := r.2 })

/-- `FeedTree::get_feed`. -/
def FeedTree.get_feed {α : Type} (t : FeedTree α) (key : String) : Option (Collection α) :=
  mapGet key t.datafeeds

/-- `FeedTree::write`: push one record onto the feed at the key, or
`KeyError` (container untouched) when the key is absent. -/
def FeedTree.write {α : Type} (t : FeedTree α) (key : String) (data : α) :
    Except CalcifyError Unit × FeedTree α :=
  match mapGet key t.datafeeds with
  | some _ =>
    (.ok (), { t with datafeeds := mapUpdate key (fun c => c.push data) t.datafeeds })
  | none => (.error .keyError, t)

/-- Impl `Serializable for FeedTree<T>`, binary form: a map of
`metadata.len() + 1` entries — the metadata pairs, then the `datafeeds`
entry holding a map of feed name to encoded collection. -/
def FeedTree.toMsg {α : Type} [Serializable α] (t : FeedTree α) : List Nat :=
  writeMapLen (t.metadata.length + 1)
    ++ (t.metadata.map fun p => writeStr p.1 ++ writeStr p.2).flatten
    ++ writeStr "datafeeds" ++ writeMapLen t.datafeeds.length
    ++ (t.datafeeds.map fun p => writeStr p.1 ++ Serializable.toMsg p.2).flatten

/-- Metadata loop of `FeedTree::from_msg`: runs for the announced number of
entries; the `datafeeds` key breaks out with the cursor past it; a failed
key or value read leaves the cursor where it was and continues. -/
def FeedTree.readMeta : Nat → List Nat → List (String × String) →
    List (String × String) × List Nat
  | 0, bs, md => (md, bs)
  | fuel + 1, bs, md =>
    match readStr bs with
    | some (key, vrest) =>
      if key = "datafeeds" then (md, vrest)
      else
        match readStr vrest with
        | some (value, rest) => FeedTree.readMeta fuel rest (mapInsert key value md).2
        | none => FeedTree.readMeta fuel bs md
    | none => FeedTree.readMeta fuel bs md

/-- Feeds loop of `FeedTree::from_msg`: runs for the announced number of
entries; an entry whose collection fails to decode is skipped without
advancing the cursor — it is silently omitted from the result. -/
def FeedTree.readFeeds {α : Type} [Deserializable α] :
    Nat → List Nat → List (String × Collection α) →
      List (String × Collection α) × List Nat
  | 0, bs, fs => (fs, bs)
  | fuel + 1, bs, fs =>
    match readStr bs with
    | some (key, vrest) =>
      match (Collection.fromMsg vrest : Except CalcifyError (Collection α × List Nat)) with
      | .ok (value, rest) => FeedTree.readFeeds fuel rest (mapInsert key value fs).2
      | .error _ => FeedTree.readFeeds fuel bs fs
    | none => FeedTree.readFeeds fuel bs fs

/-- Impl `Deserializable for FeedTree<T>`, binary form, following the
source exactly: every failure path falls through to `Ok` with whatever was
accumulated — the decode is total and never returns an error. -/
def FeedTree.fromMsg {α : Type} [Deserializable α] (bytes : List Nat) :
    Except CalcifyError (FeedTree α × List Nat) :=
  match readMapLen bytes with
  | none => .ok (⟨[], []⟩, bytes)
  | some (len, b1) =>
    let m := FeedTree.readMeta len b1 []
    match readMapLen m.2 with
    | none => .ok (⟨m.1, []⟩, m.2)
    | some (flen, b2) =>
      let f := FeedTree.readFeeds (α := α) flen b2 []
      .ok (⟨m.1, f.1⟩, f.2)

/-- Tree from `src/tree/mod.rs` — the revision in the source tree, whose
`add_field` has no duplicate-key check and whose `add_branch` accepts
eight tags.  The boxed branch payload is an opaque type parameter: the
container behavior the claims are about does not depend on it. -/
structure Tree (π : Type) where
  metadata : List (String × String)
  branches : List (String × (String × π))
deriving DecidableEq

/-- `Tree::new`: `Name` is the only initial metadata. -/
def Tree.new (π : Type) (name : String) : Tree π := ⟨[("Name", name)], []⟩

/-- `Tree::add_field` in this revision: a plain `HashMap::insert` returning
nothing; an existing value at the key is silently replaced. -/
def Tree.add_field {π : Type} (t : Tree π) (key f : String) : Tree π :=
  { t with metadata := (mapInsert key f t.metadata).2 }

/-- The tag set `Tree::add_branch` accepts in this revision: eight tags;
`PointBin` and `Object` are not among them. -/
def addBranchTags : List String :=
  ["f64", "String", "ThreeVec", "ThreeMat", "FourVec", "FourMat", "Bin", "Point"]

/-- `Tree::add_branch`: stores `Branch::new(t, b)` under the key for a
known tag (silently replacing any existing branch) and panics — modelled
as `none` — for any other tag. -/
def Tree.add_branch {π : Type} (t : Tree π) (key : String) (b : π) (tag : String) :
    Option (Tree π) :=
  if tag ∈ addBranchTags then
    some { t with branches := (mapInsert key (tag, b) t.branches).2 }
  else none

/-- `Tree::get_branch`. -/
def Tree.get_branch {π : Type} (t : Tree π) (key : String) : Option (String × π) :=
  mapGet key t.branches

/-! Association-map facts used by the container claims. -/

theorem mapInsert_fst {β : Type} (k : String) (v : β) (m : List (String × β)) :
    (mapInsert k v m).1 = mapGet k m := by
  induction m with
  | nil => rfl
  | cons p rest ih =>
    obtain ⟨k2, v2⟩ := p
    by_cases h : k2 = k
    · simp [mapInsert, mapGet, h]
    · simp [mapInsert, mapGet, h, ih]

theorem mapGet_mapInsert_self {β : Type} (k : String) (v : β) (m : List (String × β)) :
    mapGet k (mapInsert k v m).2 = some v := by
  induction m with
  | nil => simp [mapInsert, mapGet]
  | cons p rest ih =>
    obtain ⟨k2, v2⟩ := p
    by_cases h : k2 = k
    · simp [mapInsert, mapGet, h]
    · simp [mapInsert, mapGet, h, ih]

theorem mapGet_mapInsert_other {β : Type} (k k2 : String) (v : β) (m : List (String × β))
    (h : k2 ≠ k) : mapGet k2 (mapInsert k v m).2 = mapGet k2 m := by
  have hk : ¬k = k2 := fun e => h e.symm
  induction m with
  | nil => simp [mapInsert, mapGet, hk]
  | cons p rest ih =>
    obtain ⟨k3, v3⟩ := p
    by_cases h3 : k3 = k
    · subst h3
      simp [mapInsert, mapGet, hk]
    · simp [mapInsert, mapGet, h3, ih]

theorem mapGet_mapUpdate_self {β : Type} (k : String) (f : β → β) (m : List (String × β)) :
    mapGet k (mapUpdate k f m) = (mapGet k m).map f := by
  induction m with
  | nil => rfl
  | cons p rest ih =>
    obtain ⟨k2, v2⟩ := p
    by_cases h : k2 = k
    · simp [mapUpdate, mapGet, h]
    · simp [mapUpdate, mapGet, h, ih]

theorem mapGet_mapUpdate_other {β : Type} (k k2 : String) (f : β → β)
    (m : List (String × β)) (h : k2 ≠ k) :
    mapGet k2 (mapUpdate k f m) = mapGet k2 m := by
  have hk : ¬k = k2 := fun e => h e.symm
  induction m with
  | nil => rfl
  | cons p rest ih =>
    obtain ⟨k3, v3⟩ := p
    by_cases h3 : k3 = k
    · subst h3
      simp [mapUpdate, mapGet, hk]
    · simp [mapUpdate, mapGet, h3, ih]

/-! Digit-character facts: the texts of the numeric primitives contain only
decimal digits, which are none of the characters the collection text
splitter is sensitive to. -/

theorem toDec_all_digits (n : Nat) : ∀ ch ∈ toDec n, isDigitB ch = true := by
  intro ch hch
  unfold toDec at hch
  by_cases h0 : n = 0
  · rw [if_pos h0] at hch
    simp only [List.mem_singleton] at hch
    subst hch
    decide
  · rw [if_neg h0] at hch
    rw [decDigits, decDigitsF_eq_digits n n le_rfl] at hch
    simp only [List.mem_map, List.mem_reverse] at hch
    obtain ⟨d, hd, rfl⟩ := hch
    exact (digitChar_spec d (Nat.digits_lt_base (by omega) hd)).1

theorem digit_char_not_delims (ch : Char) (h : isDigitB ch = true) :
    ch ≠ ',' ∧ ch ≠ '|' ∧ ch ≠ '[' ∧ ch ≠ ']' ∧ ch ≠ lbChar := by
  refine ⟨?_, ?_, ?_, ?_, ?_⟩ <;> intro he <;> subst he <;> exact absurd h (by decide)

theorem u64_toJson_chars_safe (x : U64) :
    ∀ ch ∈ (Serializable.toJson x : List Char),
      ch ≠ ',' ∧ ch ≠ '|' ∧ ch ≠ '[' ∧ ch ≠ ']' ∧ ch ≠ lbChar :=
  fun ch hch => digit_char_not_delims ch (toDec_all_digits x.val.val ch hch)

theorem f64_toJson_chars_safe (x : F64) :
    ∀ ch ∈ (Serializable.toJson x : List Char),
      ch ≠ ',' ∧ ch ≠ '|' ∧ ch ≠ '[' ∧ ch ≠ ']' ∧ ch ≠ lbChar :=
  fun ch hch => digit_char_not_delims ch (toDec_all_digits x.bits.val ch hch)

/-! Concrete values used by the claim witnesses and counterexamples; the
float bit patterns are those of 0.0, 1.0, 2.0, 3.0 and 4.0. -/

/-- Bits of 1.0. -/
def oneF64 : F64 := ⟨⟨4607182418800017408, by decide⟩⟩

/-- Bits of 2.0. -/
def twoF64 : F64 := ⟨⟨4611686018427387904, by decide⟩⟩

/-- Bits of 3.0. -/
def threeF64 : F64 := ⟨⟨4613937818241073152, by decide⟩⟩

/-- Bits of 4.0. -/
def fourF64 : F64 := ⟨⟨4616189618054758400, by decide⟩⟩

/-- The value 5 as a u64. -/
def fiveU64 : U64 := ⟨⟨5, by decide⟩⟩

/-- The value 7 as a u64. -/
def sevenU64 : U64 := ⟨⟨7, by decide⟩⟩

/-- The zero u64. -/
def zeroU64 : U64 := ⟨⟨0, by decide⟩⟩

/-! Claim C1: collection round trips. -/

/-- C1 (amended): encoding then decoding a `Collection<T>` yields an equal
collection preserving element order — for the binary form at every length
below `2 ^ 32` (the header is the length cast to `u32`), and for the text
form at lengths 1 and N > 1 for element types whose texts the comma
splitter preserves; text-decoding an encoded empty collection instead
fails with `ParseError`, because Rust `split` turns the empty body into one
empty piece which the element parser rejects.  A concrete object-form
instance (two `Point`s) witnesses the brace-comma splitter path. -/
theorem c1_collection_roundtrip {α : Type} [Serializable α] [Deserializable α]
    (helemMsg : ∀ (x : α) (r : List Nat),
      Deserializable.fromMsg (Serializable.toMsg x ++ r) = some (x, r))
    (helemJson : ∀ x : α, Deserializable.fromJson (Serializable.toJson x) = some x)
    (hemptyJson : (Deserializable.fromJson ([] : List Char) : Option α) = none)
    (hchars : ∀ x : α, ∀ ch ∈ (Serializable.toJson x : List Char),
      ch ≠ ',' ∧ ch ≠ '|' ∧ ch ≠ '[' ∧ ch ≠ ']' ∧ ch ≠ lbChar) :
    (∀ (c : Collection α) (r : List Nat), c.vec.length < 2 ^ 32 →
      Collection.fromMsg (Serializable.toMsg c ++ r) = .ok (c, r))
    ∧ (∀ c : Collection α, c.vec ≠ [] →
      Collection.fromJson (Serializable.toJson c) = .ok c)
    ∧ (Collection.fromJson (Serializable.toJson (Collection.empty (α := α)))
      : Except CalcifyError (Collection α)) = .error .parseError
    ∧ (Collection.fromJson
        (Serializable.toJson (Collection.mk [Point.mk oneF64 twoF64, Point.mk threeF64 fourF64]))
      : Except CalcifyError (Collection Point))
      = .ok ⟨[Point.mk oneF64 twoF64, Point.mk threeF64 fourF64]⟩ := by
  refine ⟨fun c r h => collection_fromMsg_toMsg helemMsg c r h,
    fun c hne => collection_fromJson_toJson_scalar helemJson c (fun x _ => hchars x) hne,
    collection_fromJson_empty hemptyJson, by decide⟩

theorem collection_toMsg_def {α : Type} [Serializable α] (c : Collection α) :
    (Serializable.toMsg c : List Nat)
      = writeArrayLen (c.vec.length % 2 ^ 32) ++ (c.vec.map Serializable.toMsg).flatten := rfl

theorem collection_fromMsg_marker_zero {α : Type} [Deserializable α] (bs : List Nat) :
    Collection.fromMsg (α := α) (0x90 :: bs) = .ok (⟨[]⟩, bs) := rfl

/-- C1 counterexample: the claim as stated fails on the code in two places.
Text: a length-0 `Collection<u64>` does not round-trip — decode returns
`ParseError`.  Binary: a `2 ^ 32`-element collection's length header wraps
to zero, so decode returns an empty collection instead of the original. -/
theorem c1_counterexample :
    (Collection.fromJson (Serializable.toJson (Collection.empty (α := U64)))
      : Except CalcifyError (Collection U64)) = .error .parseError
    ∧ (Collection.fromMsg (Serializable.toMsg (Collection.mk (List.replicate (2 ^ 32) zeroU64)))
      : Except CalcifyError (Collection U64 × List Nat))
      ≠ .ok (⟨List.replicate (2 ^ 32) zeroU64⟩, []) := by
  constructor
  · decide
  · have ha : (Serializable.toMsg (Collection.mk (List.replicate (2 ^ 32) zeroU64)) : List Nat)
        = [0x90] ++ ((List.replicate (2 ^ 32) zeroU64).map Serializable.toMsg).flatten := by
      rw [collection_toMsg_def]
      rw [show (Collection.mk (List.replicate (2 ^ 32) zeroU64)).vec
        = List.replicate (2 ^ 32) zeroU64 from rfl]
      rw [List.length_replicate, Nat.mod_self]
      rw [show writeArrayLen 0 = [0x90] from by decide]
    rw [ha, List.cons_append, List.nil_append, collection_fromMsg_marker_zero]
    intro h
    have hv : ([] : List U64) = List.replicate (2 ^ 32) zeroU64 := by
      have h2 := (Prod.mk.injEq _ _ _ _).mp (Except.ok.inj h)
      exact congrArg Collection.vec h2.1
    have h3 := congrArg List.length hv
    rw [List.length_replicate] at h3
    exact absurd h3.symm (by decide)

/-- C1 witness: the amended theorem applied at `u64` collections of length
two, length zero, and with a binary byte suffix. -/
theorem c1_witness :
    (Collection.fromMsg (Serializable.toMsg (Collection.mk [fiveU64, sevenU64]) ++ [0xAA])
      : Except CalcifyError (Collection U64 × List Nat)) = .ok (⟨[fiveU64, sevenU64]⟩, [0xAA])
    ∧ (Collection.fromJson (Serializable.toJson (Collection.mk [fiveU64, sevenU64]))
      : Except CalcifyError (Collection U64)) = .ok ⟨[fiveU64, sevenU64]⟩
    ∧ (Collection.fromJson (Serializable.toJson (Collection.empty (α := U64)))
      : Except CalcifyError (Collection U64)) = .error .parseError := by
  have h := c1_collection_roundtrip (α := U64) u64_fromMsg_toMsg u64_fromJson_toJson
    (by decide) u64_toJson_chars_safe
  exact ⟨h.1 ⟨[fiveU64, sevenU64]⟩ [0xAA] (by decide),
    h.2.1 ⟨[fiveU64, sevenU64]⟩ (by decide), h.2.2.1⟩

/-! Claim C9: binary decode consumes exactly the encoder's bytes and
returns the rest. -/

/-- C9 (amended): binary decode applied to an encoding followed by any byte
suffix returns the decoded value and exactly the suffix — for collections
of any element codec with that property when the collection is shorter
than `2 ^ 32` (the length header is the length cast to `u32`), and
unconditionally for `Point` and for `f64`. -/
theorem c9_decode_returns_suffix {α : Type} [Serializable α] [Deserializable α]
    (helem : ∀ (x : α) (r : List Nat),
      Deserializable.fromMsg (Serializable.toMsg x ++ r) = some (x, r)) :
    (∀ (c : Collection α) (r : List Nat), c.vec.length < 2 ^ 32 →
      Collection.fromMsg (Serializable.toMsg c ++ r) = .ok (c, r))
    ∧ (∀ (p : Point) (r : List Nat), Point.fromMsg (Point.toMsg p ++ r) = some (p, r))
    ∧ (∀ (x : F64) (r : List Nat),
      Deserializable.fromMsg (Serializable.toMsg x ++ r) = some (x, r)) :=
  ⟨fun c r h => collection_fromMsg_toMsg helem c r h, point_fromMsg_toMsg,
    f64_fromMsg_toMsg⟩

/-- C9 counterexample: at length exactly `2 ^ 32` the claim fails — the
`u32` length header wraps to zero and decode consumes none of the element
bytes, returning an empty collection and the whole payload as the rest. -/
theorem c9_counterexample :
    (Collection.fromMsg (Serializable.toMsg (Collection.mk (List.replicate (2 ^ 32) oneF64)) ++ [])
      : Except CalcifyError (Collection F64 × List Nat))
      ≠ .ok (⟨List.replicate (2 ^ 32) oneF64⟩, []) := by
  have ha : (Serializable.toMsg (Collection.mk (List.replicate (2 ^ 32) oneF64)) : List Nat)
      = [0x90] ++ ((List.replicate (2 ^ 32) oneF64).map Serializable.toMsg).flatten := by
    rw [collection_toMsg_def]
    rw [show (Collection.mk (List.replicate (2 ^ 32) oneF64)).vec
      = List.replicate (2 ^ 32) oneF64 from rfl]
    rw [List.length_replicate, Nat.mod_self]
    rw [show writeArrayLen 0 = [0x90] from by decide]
  rw [List.append_nil, ha, List.cons_append, List.nil_append,
    collection_fromMsg_marker_zero]
  intro h
  have hv : ([] : List F64) = List.replicate (2 ^ 32) oneF64 := by
    have h2 := (Prod.mk.injEq _ _ _ _).mp (Except.ok.inj h)
    exact congrArg Collection.vec h2.1
  have h3 := congrArg List.length hv
  rw [List.length_replicate] at h3
  exact absurd h3.symm (by decide)

/-- C9 witness: the amended theorem applied at an `f64` collection, a
point and a float, each with a nonempty byte suffix. -/
theorem c9_witness :
    (Collection.fromMsg (Serializable.toMsg (Collection.mk [oneF64, twoF64]) ++ [0xBB])
      : Except CalcifyError (Collection F64 × List Nat)) = .ok (⟨[oneF64, twoF64]⟩, [0xBB])
    ∧ Point.fromMsg (Point.toMsg (Point.mk oneF64 twoF64) ++ [0xCC])
      = some (Point.mk oneF64 twoF64, [0xCC])
    ∧ (Deserializable.fromMsg (Serializable.toMsg threeF64 ++ [0xDD])
      : Option (F64 × List Nat)) = some (threeF64, [0xDD]) := by
  have h := c9_decode_returns_suffix (α := F64) f64_fromMsg_toMsg
  exact ⟨h.1 ⟨[oneF64, twoF64]⟩ [0xBB] (by decide),
    h.2.1 (Point.mk oneF64 twoF64) [0xCC], h.2.2 threeF64 [0xDD]⟩

/-! Claim C2: Branch binary round trip per decodable tag. -/

/-- C2 (code bug): binary-encoding a `Point` branch and decoding it fails
with `ParseError`, because the `Bin`/`Point`/`PointBin` arms of
`Branch::from_msg` decode from the cursor still positioned before the
`subtype` key (`&mut bytes`) instead of the cursor past the `branch` key
(`unparsed`) — the decoder meets the `subtype` string header where it
expects an array header.  The `f64` arm, which uses the right cursor,
round-trips the same way the claim states for every tag. -/
theorem c2_branch_msg_point_fails :
    Branch.fromMsg (Branch.toMsg (Branch.new "Point" (.pointCol ⟨[Point.mk oneF64 twoF64]⟩)))
      = .error .parseError
    ∧ Branch.fromMsg (Branch.toMsg (Branch.new "Bin"
        (.binCol ⟨[Bin.mk oneF64 twoF64 fiveU64]⟩))) = .error .parseError
    ∧ Branch.fromMsg (Branch.toMsg (Branch.new "f64" (.f64Col ⟨[oneF64, twoF64]⟩)))
      = .ok (Branch.new "f64" (.f64Col ⟨[oneF64, twoF64]⟩), []) := by
  refine ⟨by decide, by decide, by decide⟩

/-! Claim C5: scalar and record round trips. -/

/-- The failing `Bin` for C5: its count `2 ^ 53 + 1` is the smallest
integer IEEE binary64 cannot represent. -/
def binBig : Bin := ⟨⟨⟨0, by decide⟩⟩, ⟨⟨1, by decide⟩⟩, ⟨⟨9007199254740993, by decide⟩⟩⟩

/-- C5 (code bug): the text round trip of a `Bin` loses the count when it
exceeds `2 ^ 53`: `Bin::from_json` parses the count field with
`parse::<f64>()? as u64`, and the float rounds `2 ^ 53 + 1` down to
`2 ^ 53`, so decode(encode(x)) returns a different `Bin`.  The binary round
trip of the same value is exact. -/
theorem c5_bin_text_count_precision :
    Bin.fromJson (Bin.toJson binBig)
      = some ⟨⟨⟨0, by decide⟩⟩, ⟨⟨1, by decide⟩⟩, ⟨⟨9007199254740992, by decide⟩⟩⟩
    ∧ Bin.fromJson (Bin.toJson binBig) ≠ some binBig
    ∧ Bin.fromMsg (Bin.toMsg binBig ++ []) = some (binBig, []) := by
  refine ⟨by decide, by decide, by decide⟩

/-! Claim C4: decode errors for the Object sentinel and unknown tags. -/

/-- C4 counterexample: the text decoder does not return the dedicated
error for the `Object` sentinel — `Branch::from_json` has no `Object`
arm, so the tag falls through to the catch-all and comes back as a plain
`ParseError` instead of `ObjectBranchDeserializeError`. -/
theorem c4_counterexample :
    Branch.fromJson (Branch.toJson (Branch.new "Object" (.f64Col ⟨[]⟩)))
      = .error .parseError
    ∧ CalcifyError.parseError ≠ CalcifyError.objectBranchDeserializeError := by
  exact ⟨by decide, by decide⟩

/-- C4 (amended): the binary decoder distinguishes the two failure modes —
`ObjectBranchDeserializeError` for the `Object` sentinel (whatever the
payload bytes) and `ParseError` for any tag outside the closed set — while
the text decoder returns `ParseError` for both the `Object` sentinel and
an unknown tag. -/
theorem c4_object_and_unknown_tags :
    (∀ payload : List Nat,
      Branch.fromMsg (writeMapLen 2 ++ writeStr "subtype" ++ writeStr "Object"
        ++ writeStr "branch" ++ payload) = .error .objectBranchDeserializeError)
    ∧ (∀ (st : String) (payload : List Nat), st.data.length < 2 ^ 32 →
      st ∉ ["f64", "ThreeVec", "ThreeMat", "FourVec", "FourMat", "Bin", "Point",
        "PointBin", "Object"] →
      Branch.fromMsg (writeMapLen 2 ++ writeStr "subtype" ++ writeStr st
        ++ writeStr "branch" ++ payload) = .error .parseError)
    ∧ Branch.fromJson (Branch.toJson (Branch.new "Object" (.f64Col ⟨[]⟩)))
      = .error .parseError
    ∧ Branch.fromJson (Branch.toJson (Branch.new "Foo" (.f64Col ⟨[]⟩)))
      = .error .parseError := by
  have hsub : ∀ r : List Nat, readStr (writeStr "subtype" ++ r) = some ("subtype", r) :=
    fun r => readStr_writeStr "subtype" r (by decide)
  have hbr : ∀ r : List Nat, readStr (writeStr "branch" ++ r) = some ("branch", r) :=
    fun r => readStr_writeStr "branch" r (by decide)
  have hmap : ∀ r : List Nat, readMapLen (writeMapLen 2 ++ r) = some (2, r) :=
    fun r => readMapLen_writeMapLen 2 r (by decide)
  refine ⟨?_, ?_, by decide, by decide⟩
  · intro payload
    have hobj : ∀ r : List Nat, readStr (writeStr "Object" ++ r) = some ("Object", r) :=
      fun r => readStr_writeStr "Object" r (by decide)
    simp only [List.append_assoc, Branch.fromMsg, hmap, hsub, hobj, hbr]
    rw [if_neg (by decide : ¬("Object" = "f64")),
      if_neg (by decide : ¬("Object" = "ThreeVec")),
      if_neg (by decide : ¬("Object" = "ThreeMat")),
      if_neg (by decide : ¬("Object" = "FourVec")),
      if_neg (by decide : ¬("Object" = "FourMat")),
      if_neg (by decide : ¬("Object" = "Bin")),
      if_neg (by decide : ¬("Object" = "Point")),
      if_neg (by decide : ¬("Object" = "PointBin"))]
    rfl
  · intro st payload hstlen hnot
    have hst : ∀ r : List Nat, readStr (writeStr st ++ r) = some (st, r) :=
      fun r => readStr_writeStr st r hstlen
    have n1 : ¬(st = "f64") := fun e => hnot (by rw [e]; decide)
    have n2 : ¬(st = "ThreeVec") := fun e => hnot (by rw [e]; decide)
    have n3 : ¬(st = "ThreeMat") := fun e => hnot (by rw [e]; decide)
    have n4 : ¬(st = "FourVec") := fun e => hnot (by rw [e]; decide)
    have n5 : ¬(st = "FourMat") := fun e => hnot (by rw [e]; decide)
    have n6 : ¬(st = "Bin") := fun e => hnot (by rw [e]; decide)
    have n7 : ¬(st = "Point") := fun e => hnot (by rw [e]; decide)
    have n8 : ¬(st = "PointBin") := fun e => hnot (by rw [e]; decide)
    have n9 : ¬(st = "Object") := fun e => hnot (by rw [e]; decide)
    simp only [List.append_assoc, Branch.fromMsg, hmap, hsub, hst, hbr,
      if_neg n1, if_neg n2, if_neg n3, if_neg n4, if_neg n5, if_neg n6, if_neg n7,
      if_neg n8, if_neg n9]

/-- C4 witness: the amended theorem applied to an `Object`-tagged and a
`Foo`-tagged binary branch with an arbitrary concrete payload. -/
theorem c4_witness :
    Branch.fromMsg (writeMapLen 2 ++ writeStr "subtype" ++ writeStr "Object"
      ++ writeStr "branch" ++ [0x90]) = .error .objectBranchDeserializeError
    ∧ Branch.fromMsg (writeMapLen 2 ++ writeStr "subtype" ++ writeStr "Foo"
      ++ writeStr "branch" ++ [0x90]) = .error .parseError := by
  have h := c4_object_and_unknown_tags
  exact ⟨h.1 [0x90], h.2.1 "Foo" [0x90] (by decide) (by decide)⟩

/-! Claim C3: duplicate-key inserts. -/

/-- C3 counterexample: inserting under an existing key does not leave the
container unchanged.  `FeedTree::add_field` on the pre-existing `Name` key
does return `KeyError`, but the insert has already replaced the stored
value; and `Tree::add_field` in this revision returns no `Result` at all
and silently overwrites. -/
theorem c3_counterexample :
    mapGet "Name" (FeedTree.new F64 "T" "f64").metadata = some "T"
    ∧ ((FeedTree.new F64 "T" "f64").add_field "Name" "x").1 = .error .keyError
    ∧ mapGet "Name" ((FeedTree.new F64 "T" "f64").add_field "Name" "x").2.metadata
      = some "x"
    ∧ mapGet "Name" ((Tree.new Unit "T").add_field "Name" "x").metadata = some "x" := by
  refine ⟨by decide, by decide, by decide, by decide⟩

/-- C3 (amended): `FeedTree::add_field` and `FeedTree::add_feed` return
`KeyError` exactly when the key is already present, but in that case the
new value has already replaced the stored one — only the other entries are
unchanged; on a fresh key they return `Ok` and add the entry.
`Tree::add_field` in this revision has no result and silently overwrites.
-/
theorem c3_insert_behavior :
    (∀ (α : Type) (t : FeedTree α) (k v : String),
      ((mapGet k t.metadata).isSome →
        (t.add_field k v).1 = .error .keyError
        ∧ mapGet k (t.add_field k v).2.metadata = some v
        ∧ ∀ k2, k2 ≠ k →
            mapGet k2 (t.add_field k v).2.metadata = mapGet k2 t.metadata)
      ∧ (mapGet k t.metadata = none →
        (t.add_field k v).1 = .ok ()
        ∧ mapGet k (t.add_field k v).2.metadata = some v
        ∧ ∀ k2, k2 ≠ k →
            mapGet k2 (t.add_field k v).2.metadata = mapGet k2 t.metadata))
    ∧ (∀ (α : Type) (t : FeedTree α) (k : String) (v : Collection α),
      ((mapGet k t.datafeeds).isSome →
        (t.add_feed k v).1 = .error .keyError
        ∧ mapGet k (t.add_feed k v).2.datafeeds = some v
        ∧ ∀ k2, k2 ≠ k →
            mapGet k2 (t.add_feed k v).2.datafeeds = mapGet k2 t.datafeeds)
      ∧ (mapGet k t.datafeeds = none →
        (t.add_feed k v).1 = .ok ()
        ∧ mapGet k (t.add_feed k v).2.datafeeds = some v
        ∧ ∀ k2, k2 ≠ k →
            mapGet k2 (t.add_feed k v).2.datafeeds = mapGet k2 t.datafeeds))
    ∧ (∀ (π : Type) (t : Tree π) (k v : String),
      mapGet k (Tree.add_field t k v).metadata = some v
      ∧ ∀ k2, k2 ≠ k →
          mapGet k2 (Tree.add_field t k v).metadata = mapGet k2 t.metadata) := by
  refine ⟨fun α t k v => ⟨fun hs => ?_, fun hn => ?_⟩,
    fun α t k v => ⟨fun hs => ?_, fun hn => ?_⟩, fun π t k v => ⟨?_, fun k2 h2 => ?_⟩⟩
  · obtain ⟨old, hold⟩ := Option.isSome_iff_exists.mp hs
    have hfst : (mapInsert k v t.metadata).1 = some old := by
      rw [mapInsert_fst]; exact hold
    refine ⟨?_, ?_, fun k2 h2 => ?_⟩
    · simp [FeedTree.add_field, hfst]
    · simp [FeedTree.add_field, hfst, mapGet_mapInsert_self]
    · simp [FeedTree.add_field, hfst, mapGet_mapInsert_other k k2 v t.metadata h2]
  · have hfst : (mapInsert k v t.metadata).1 = none := by
      rw [mapInsert_fst]; exact hn
    refine ⟨?_, ?_, fun k2 h2 => ?_⟩
    · simp [FeedTree.add_field, hfst]
    · simp [FeedTree.add_field, hfst, mapGet_mapInsert_self]
    · simp [FeedTree.add_field, hfst, mapGet_mapInsert_other k k2 v t.metadata h2]
  · obtain ⟨old, hold⟩ := Option.isSome_iff_exists.mp hs
    have hfst : (mapInsert k v t.datafeeds).1 = some old := by
      rw [mapInsert_fst]; exact hold
    refine ⟨?_, ?_, fun k2 h2 => ?_⟩
    · simp [FeedTree.add_feed, hfst]
    · simp [FeedTree.add_feed, hfst, mapGet_mapInsert_self]
    · simp [FeedTree.add_feed, hfst, mapGet_mapInsert_other k k2 v t.datafeeds h2]
  · have hfst : (mapInsert k v t.datafeeds).1 = none := by
      rw [mapInsert_fst]; exact hn
    refine ⟨?_, ?_, fun k2 h2 => ?_⟩
    · simp [FeedTree.add_feed, hfst]
    · simp [FeedTree.add_feed, hfst, mapGet_mapInsert_self]
    · simp [FeedTree.add_feed, hfst, mapGet_mapInsert_other k k2 v t.datafeeds h2]
  · simp [Tree.add_field, mapGet_mapInsert_self]
  · simp [Tree.add_field, mapGet_mapInsert_other k k2 v t.metadata h2]

/-- C3 witness: the amended theorem applied to a `FeedTree` with its
initial `Name` metadata (duplicate key) and a fresh `Desc` key. -/
theorem c3_witness :
    (((FeedTree.new F64 "T" "f64").add_field "Name" "x").1 = .error .keyError
      ∧ mapGet "Name" ((FeedTree.new F64 "T" "f64").add_field "Name" "x").2.metadata
        = some "x")
    ∧ ((FeedTree.new F64 "T" "f64").add_field "Desc" "d").1 = .ok () := by
  have h1 := (c3_insert_behavior.1 F64 (FeedTree.new F64 "T" "f64") "Name" "x").1 (by decide)
  have h2 := (c3_insert_behavior.1 F64 (FeedTree.new F64 "T" "f64") "Desc" "d").2 (by decide)
  exact ⟨⟨h1.1, h1.2.1⟩, h2.1⟩

/-! Claim C6: FeedTree write and the append-then-flush scenario. -/

/-- The C6 scenario container: a `FeedTree<f64>` with one feed seeded with
`[1.0, 2.0]` and then written to twice. -/
def ftScenario : FeedTree F64 :=
  ((((FeedTree.new F64 "Test_Tree" "f64").add_feed "f"
    ⟨[oneF64, twoF64]⟩).2.write "f" threeF64).2.write "f" fourF64).2

/-- C6: `FeedTree::write` appends exactly one record at the end of the
existing feed named by the key and returns `Ok` (metadata and the other
feeds untouched), and returns `KeyError` with the container unchanged when
no such feed exists; concretely, the seeded-then-written `FeedTree<f64>`
holds the feed `[1.0, 2.0, 3.0, 4.0]` and survives the binary round trip.
-/
theorem c6_feedtree_write :
    (∀ (α : Type) (t : FeedTree α) (key : String) (x : α),
      ((mapGet key t.datafeeds).isSome →
        (t.write key x).1 = .ok ()
        ∧ (t.write key x).2.metadata = t.metadata
        ∧ mapGet key (t.write key x).2.datafeeds
          = (mapGet key t.datafeeds).map (fun c => Collection.mk (c.vec ++ [x]))
        ∧ ∀ k2, k2 ≠ key →
            mapGet k2 (t.write key x).2.datafeeds = mapGet k2 t.datafeeds)
      ∧ (mapGet key t.datafeeds = none → t.write key x = (.error .keyError, t)))
    ∧ ftScenario.get_feed "f" = some ⟨[oneF64, twoF64, threeF64, fourF64]⟩
    ∧ FeedTree.fromMsg (α := F64) (FeedTree.toMsg ftScenario) = .ok (ftScenario, []) := by
  refine ⟨fun α t key x => ⟨fun hs => ?_, fun hn => ?_⟩, by decide, by decide⟩
  · obtain ⟨fs, hfs⟩ := Option.isSome_iff_exists.mp hs
    refine ⟨?_, ?_, ?_, fun k2 h2 => ?_⟩
    · simp [FeedTree.write, hfs]
    · simp [FeedTree.write, hfs]
    · simp [FeedTree.write, hfs, mapGet_mapUpdate_self, Collection.push]
    · simp [FeedTree.write, hfs, mapGet_mapUpdate_other key k2 _ t.datafeeds h2]
  · simp [FeedTree.write, hn]

/-- C6 witness: the write contract applied at the scenario's feed (present
key) and at an absent key. -/
theorem c6_witness :
    (ftScenario.write "f" oneF64).1 = .ok ()
    ∧ mapGet "f" (ftScenario.write "f" oneF64).2.datafeeds
      = some ⟨[oneF64, twoF64, threeF64, fourF64, oneF64]⟩
    ∧ ftScenario.write "g" oneF64 = (.error .keyError, ftScenario) := by
  have h1 := (c6_feedtree_write.1 F64 ftScenario "f" oneF64).1 (by decide)
  have h2 := (c6_feedtree_write.1 F64 ftScenario "g" oneF64).2 (by decide)
  refine ⟨h1.1, ?_, h2⟩
  rw [h1.2.2.1]
  decide

/-! Claim C7: the closed tag set of `Tree::add_branch`. -/

/-- C7 counterexample: the claim's ten-tag closed set is not what this
revision accepts — `add_branch` panics on both `PointBin` and `Object`,
while the claim requires them to be accepted for writing. -/
theorem c7_counterexample :
    Tree.add_branch (Tree.new Unit "T") "k" () "Object" = none
    ∧ Tree.add_branch (Tree.new Unit "T") "k" () "PointBin" = none := by
  exact ⟨rfl, rfl⟩

/-- C7 (amended): `Tree::add_branch` accepts exactly the eight tags
`f64`, `String`, `ThreeVec`, `ThreeMat`, `FourVec`, `FourMat`, `Bin`,
`Point` — storing the branch under the key — and panics for every other
subtype string, including `PointBin` and `Object`. -/
theorem c7_add_branch_tags :
    ∀ (π : Type) (t : Tree π) (key : String) (b : π) (tag : String),
      (tag ∈ addBranchTags →
        Tree.add_branch t key b tag
          = some { t with branches := (mapInsert key (tag, b) t.branches).2 })
      ∧ (tag ∉ addBranchTags → Tree.add_branch t key b tag = none) := by
  intro π t key b tag
  constructor
  · intro h
    simp [Tree.add_branch, h]
  · intro h
    simp [Tree.add_branch, h]

/-- C7 witness: the amended theorem applied at the `Point` tag (accepted)
and at the `Object` tag (panic). -/
theorem c7_witness :
    Tree.add_branch (Tree.new Unit "T") "k" () "Point"
      = some { Tree.new Unit "T" with
          branches := (mapInsert "k" ("Point", ()) (Tree.new Unit "T").branches).2 }
    ∧ Tree.add_branch (Tree.new Unit "T") "k" () "Object" = none := by
  exact ⟨(c7_add_branch_tags Unit (Tree.new Unit "T") "k" () "Point").1 (by decide),
    (c7_add_branch_tags Unit (Tree.new Unit "T") "k" () "Object").2 (by decide)⟩

/-! Claim C8: no partial-container recovery. -/

/-- The uncorrupted C8 container: a `FeedTree<f64>` with one feed `f`
holding `[1.0]`. -/
def ftC8 : FeedTree F64 := ((FeedTree.new F64 "T" "f64").add_feed "f" ⟨[oneF64]⟩).2

/-- The C8 failing input: the binary encoding of `ftC8` with the feed
collection's array-length marker byte (`0x91`) replaced by the msgpack nil
marker `0xc0`, so the feed's collection fails to decode. -/
def c8Bytes : List Nat :=
  writeMapLen 3 ++ writeStr "Name" ++ writeStr "T" ++ writeStr "SubType" ++ writeStr "f64"
    ++ writeStr "datafeeds" ++ writeMapLen 1 ++ writeStr "f"
    ++ [0xc0] ++ writeF64 oneF64.bits.val

/-- C8 (code bug): `FeedTree::from_msg` does not fail as a whole when a
contained feed fails to decode.  The uncorrupted bytes round-trip; the
corrupted bytes decode to `Ok` with the metadata intact, the failing feed
silently omitted, and the cursor left before the feed's key — a partially
recovered container, where the claim (and the spec's §7) requires an
error. -/
theorem c8_partial_recovery :
    FeedTree.fromMsg (α := F64) (FeedTree.toMsg ftC8) = .ok (ftC8, [])
    ∧ FeedTree.fromMsg (α := F64) c8Bytes
      = .ok (⟨[("Name", "T"), ("SubType", "f64")], []⟩,
        writeStr "f" ++ [0xc0] ++ writeF64 oneF64.bits.val)
    ∧ ∀ e : CalcifyError, FeedTree.fromMsg (α := F64) c8Bytes ≠ .error e := by
  refine ⟨by decide, by decide, fun e h => ?_⟩
  have h2 : FeedTree.fromMsg (α := F64) c8Bytes
      = .ok (⟨[("Name", "T"), ("SubType", "f64")], []⟩,
        writeStr "f" ++ [0xc0] ++ writeF64 oneF64.bits.val) := by decide
  rw [h2] at h
  exact Except.noConfusion h

/-! Claim C10: Branch construction and repeated extraction. -/

/-- C10: for a Branch built by `Branch::new` from a collection of a
decodable type with the matching tag, `extract` returns a collection equal
to the original; the first call fills the binary buffer cache, and a
second call on the returned state decodes the same cached bytes and
returns the same collection.  Holds whenever the element codec round-trips
with suffixes and the collection is shorter than `2 ^ 32`. -/
theorem c10_extract_stable {α : Type} [Serializable α] [Deserializable α]
    (helem : ∀ (x : α) (r : List Nat),
      Deserializable.fromMsg (Serializable.toMsg x ++ r) = some (x, r))
    (s : String) (c : Collection α) (hlen : c.vec.length < 2 ^ 32) :
    (BranchE.new s c).extract
      = (.ok c, ⟨s, c, some (Serializable.toMsg c)⟩)
    ∧ ((BranchE.new s c).extract.2.extract
      = (.ok c, ⟨s, c, some (Serializable.toMsg c)⟩)) := by
  have hdec : (Collection.fromMsg (Serializable.toMsg c)
      : Except CalcifyError (Collection α × List Nat)) = .ok (c, []) := by
    have h := collection_fromMsg_toMsg helem c [] hlen
    rwa [List.append_nil] at h
  constructor
  · simp [BranchE.new, BranchE.extract, hdec]
  · simp [BranchE.new, BranchE.extract, hdec]

/-- C10 counterexample: at length exactly `2 ^ 32` the claim as stated
fails — the cached buffer's `u32` length header wraps to zero, so
`extract` returns an empty collection instead of the one the Branch was
built from. -/
theorem branchE_extract_of_fromMsg {α : Type} [Serializable α] [Deserializable α]
    (s : String) (c d : Collection α) (rest : List Nat)
    (h : (Collection.fromMsg (Serializable.toMsg c)
      : Except CalcifyError (Collection α × List Nat)) = .ok (d, rest)) :
    (BranchE.new s c).extract = (.ok d, ⟨s, c, some (Serializable.toMsg c)⟩) := by
  simp [BranchE.new, BranchE.extract, h]

theorem c10_counterexample :
    ((BranchE.new "f64" (Collection.mk (List.replicate (2 ^ 32) oneF64))).extract.1
      : Except CalcifyError (Collection F64))
      ≠ .ok ⟨List.replicate (2 ^ 32) oneF64⟩ := by
  have ha : (Serializable.toMsg (Collection.mk (List.replicate (2 ^ 32) oneF64)) : List Nat)
      = [0x90] ++ ((List.replicate (2 ^ 32) oneF64).map Serializable.toMsg).flatten := by
    rw [collection_toMsg_def]
    rw [show (Collection.mk (List.replicate (2 ^ 32) oneF64)).vec
      = List.replicate (2 ^ 32) oneF64 from rfl]
    rw [List.length_replicate, Nat.mod_self]
    rw [show writeArrayLen 0 = [0x90] from by decide]
  have h0 : (Collection.fromMsg
      (Serializable.toMsg (Collection.mk (List.replicate (2 ^ 32) oneF64)))
      : Except CalcifyError (Collection F64 × List Nat))
      = .ok (⟨[]⟩, ((List.replicate (2 ^ 32) oneF64).map Serializable.toMsg).flatten) := by
    rw [ha, List.cons_append, List.nil_append, collection_fromMsg_marker_zero]
  have hx := branchE_extract_of_fromMsg "f64"
    (Collection.mk (List.replicate (2 ^ 32) oneF64)) ⟨[]⟩ _ h0
  rw [congrArg Prod.fst hx]
  intro h
  have hv : ([] : List F64) = List.replicate (2 ^ 32) oneF64 :=
    congrArg Collection.vec (Except.ok.inj h)
  have h3 := congrArg List.length hv
  rw [List.length_replicate] at h3
  exact absurd h3.symm (by decide)

/-- C10 witness: extraction of a two-element `f64` collection, twice. -/
theorem c10_witness :
    (BranchE.new "f64" (Collection.mk [oneF64, twoF64])).extract
      = (.ok ⟨[oneF64, twoF64]⟩,
        ⟨"f64", ⟨[oneF64, twoF64]⟩, some (Serializable.toMsg (Collection.mk [oneF64, twoF64]))⟩)
    ∧ (BranchE.new "f64" (Collection.mk [oneF64, twoF64])).extract.2.extract
      = (.ok ⟨[oneF64, twoF64]⟩,
        ⟨"f64", ⟨[oneF64, twoF64]⟩, some (Serializable.toMsg (Collection.mk [oneF64, twoF64]))⟩) :=
  c10_extract_stable f64_fromMsg_toMsg "f64" ⟨[oneF64, twoF64]⟩ (by decide)

end Calcify
